import Mathlib

/-!
Verification of the puty YAML-driven test framework core
(configuration-resolution pipeline) against its specification.

The development shallowly embeds the JavaScript sources:

* `src/mockResolver.js` — `deepEqual`, `resolveMocks`, `processMockReferences`,
  `createMockFunction`, `validateMockCalls`, `createMockFunctions`;
* `src/utils.js` — `loadYamlWithPath` (include resolution with cycle
  detection), `flattenDocuments`, `processDocuments`, `parseWithIncludes`;
* `src/puty.js` — `parseYamlDocuments`, `getNestedProperty`,
  `callNestedMethod`, `setupFunctionTests` / `setupClassTests` case runners,
  `injectFunctions`.

JavaScript runtime values are modelled by the inductive type `Value`.
Machine-level aspects that the claims do not touch are abstracted as noted at
each definition: numbers are modelled as integers (no floats / NaN in any
claim), object reference identity for arrays/objects is approximated as
"never identical" (structurally-equal same-reference values compare equal
anyway), functions are opaque handles whose behaviour is an environment
parameter, and prototype-chain lookups are out of scope (own properties
only).
-/

/-- Model of a JavaScript runtime value as produced by YAML parsing plus the
opaque function values (mock functions, members of live objects) that the
pipeline injects.  `vNull` and `vUndefined` are kept distinct because the
source distinguishes them (`===` does, and `js-yaml` produces `null`). -/
inductive Value where
  | vNull
  | vUndefined
  | vBool (b : Bool)
  | vInt (n : Int)
  | vStr (s : String)
  | vArr (elems : List Value)
  | vObj (fields : List (String × Value))
  | vFunc (id : Nat)
deriving Repr, Inhabited

namespace Value

/-- JavaScript `x == null`, true exactly for `null` and `undefined`. -/
def isNullish : Value → Bool
  | .vNull => true
  | .vUndefined => true
  | _ => false

/-- JavaScript truthiness.  (`NaN` does not arise: numbers are integers.) -/
def jsTruthy : Value → Bool
  | .vNull => false
  | .vUndefined => false
  | .vBool b => b
  | .vInt n => n != 0
  | .vStr s => s != ""
  | .vArr _ => true
  | .vObj _ => true
  | .vFunc _ => true

/-- JavaScript strict equality `===`.  Primitives compare by value; function
values compare by handle (reference).  For arrays and objects `===` is
reference equality, which the structural model cannot observe; it is
approximated as `false` (sound for `deepEqual`: a same-reference composite is
structurally equal to itself, so the recursive comparison yields `true`
anyway). -/
def strictEq : Value → Value → Bool
  | .vNull, .vNull => true
  | .vUndefined, .vUndefined => true
  | .vBool a, .vBool b => a == b
  | .vInt a, .vInt b => a == b
  | .vStr a, .vStr b => a == b
  | .vFunc a, .vFunc b => a == b
  | _, _ => false

/-- JavaScript `typeof x === "object"` (for non-null values; `null` is
pre-filtered by every caller).  Functions have `typeof "function"`. -/
def typeofObject : Value → Bool
  | .vArr _ => true
  | .vObj _ => true
  | _ => false

/-- First-match association-list lookup, the model of own-property access on
an object literal (JavaScript objects cannot hold duplicate keys; the model
tolerates them by taking the first binding, like repeated YAML keys do). -/
def jsLookup (fields : List (String × Value)) (k : String) : Option Value :=
  match fields with
  | [] => none
  | (k', v) :: rest => if k' == k then some v else jsLookup rest k

/-- Elements of an array keyed by their decimal index string, starting at
index `i`: the model of `Object.keys` enumeration over a JavaScript array. -/
def indexEntries (i : Nat) : List Value → List (String × Value)
  | [] => []
  | v :: rest => (toString i, v) :: indexEntries (i + 1) rest

/-- Model of `Object.keys` / `Object.entries` as used by `deepEqual`: an
object yields its fields, an array yields its elements keyed by their decimal
index string. -/
def jsEntries : Value → List (String × Value)
  | .vObj fields => fields
  | .vArr elems => indexEntries 0 elems
  | _ => []

theorem mem_of_mem_indexEntries {elems : List Value} {i : Nat} {k : String}
    {v : Value} (h : (k, v) ∈ indexEntries i elems) : v ∈ elems := by
  induction elems generalizing i with
  | nil => cases h
  | cons x rest ih =>
    rcases List.mem_cons.mp h with h | h
    · cases h
      exact List.mem_cons_self _ _
    · exact List.mem_cons_of_mem _ (ih h)

theorem sizeOf_lt_of_mem_fields {fields : List (String × Value)} {k : String}
    {v : Value} (h : (k, v) ∈ fields) : sizeOf v < sizeOf (Value.vObj fields) := by
  induction fields with
  | nil => cases h
  | cons p rest ih =>
    rcases List.mem_cons.mp h with h | h
    · cases h
      simp
      omega
    · have := ih h
      simp at this ⊢
      omega

theorem sizeOf_lt_of_mem_elems {elems : List Value} {v : Value}
    (h : v ∈ elems) : sizeOf v < sizeOf (Value.vArr elems) := by
  induction elems with
  | nil => cases h
  | cons x rest ih =>
    rcases List.mem_cons.mp h with h | h
    · subst h
      simp
      omega
    · have := ih h
      simp at this ⊢
      omega

theorem sizeOf_lt_of_mem_entries {a : Value} {k : String} {v : Value}
    (h : (k, v) ∈ jsEntries a) : sizeOf v < sizeOf a := by
  cases a with
  | vObj fields => exact sizeOf_lt_of_mem_fields h
  | vArr elems => exact sizeOf_lt_of_mem_elems (mem_of_mem_indexEntries h)
  | vNull => cases h
  | vUndefined => cases h
  | vBool b => cases h
  | vInt n => cases h
  | vStr s => cases h
  | vFunc i => cases h

end Value

open Value

/-- Shallow embedding of `deepEqual` from `src/mockResolver.js`:

* `a === b` short-circuit,
* `a == null || b == null` rejection,
* both arrays: length check then positional recursion,
* both `typeof "object"`: `Object.keys` length check, then for each key of
  `a`, membership in `keys(b)` and recursive equality of the two property
  values (an array compared against a plain object takes this branch via its
  index keys, as in JavaScript),
* otherwise `false`. -/
def deepEqual (a b : Value) : Bool :=
  if strictEq a b then true
  else if isNullish a || isNullish b then false
  else
    match a, b with
    | .vArr xs, .vArr ys =>
      xs.length == ys.length &&
        (xs.zip ys).attach.all fun ⟨(x, y), _⟩ => deepEqual x y
    | a, b =>
      if typeofObject a && typeofObject b then
        let ea := jsEntries a
        let eb := jsEntries b
        ea.length == eb.length &&
          ea.attach.all fun ⟨(k, va), _⟩ =>
            (eb.map Prod.fst).contains k &&
              match jsLookup eb k with
              | some vb => deepEqual va vb
              | none => false
      else false
termination_by sizeOf a
decreasing_by
  all_goals simp_wf
  · rename_i hmem
    have := sizeOf_lt_of_mem_elems (List.of_mem_zip hmem).1
    simp at this
    omega
  · rename_i _ hmem
    exact sizeOf_lt_of_mem_entries hmem

/-! ## Association lists: the model of plain JavaScript objects used as maps -/

/-- First-match lookup in an association list, modelling `obj[key]` for the
string-keyed record objects (mock-definition maps, mock-function maps). -/
def lookupA {β : Type} (l : List (String × β)) (k : String) : Option β :=
  match l with
  | [] => none
  | (k', v) :: rest => if k' == k then some v else lookupA rest k

/-- Model of `Object.assign(target, source)` on string-keyed records: keys
already in `target` keep their position but receive the `source` value when
`source` binds them; keys only in `source` are appended in `source` order. -/
def objAssign {β : Type} (target source : List (String × β)) : List (String × β) :=
  (target.map fun (k, v) => (k, (lookupA source k).getD v)) ++
    source.filter fun (k, _) => ¬ (target.map Prod.fst).contains k

theorem lookupA_map_value {β : Type} (l : List (String × β)) (f : String → β → β)
    (k : String) :
    lookupA (l.map fun (k', v) => (k', f k' v)) k =
      (lookupA l k).map fun v => f k v := by
  induction l with
  | nil => rfl
  | cons p rest ih =>
    obtain ⟨k', v⟩ := p
    by_cases h : k' = k
    · subst h
      simp [lookupA]
    · simp [lookupA, h, ih]

theorem lookupA_isSome_iff_keyMem {β : Type} (l : List (String × β)) (k : String) :
    (lookupA l k).isSome = (l.map Prod.fst).contains k := by
  induction l with
  | nil => rfl
  | cons p rest ih =>
    obtain ⟨k', v⟩ := p
    by_cases h : k' = k
    · subst h
      simp [lookupA]
    · simp [lookupA, h, ih, List.contains_cons]
      intro hk
      exact absurd hk.symm h

theorem lookupA_append {β : Type} (l₁ l₂ : List (String × β)) (k : String) :
    lookupA (l₁ ++ l₂) k =
      match lookupA l₁ k with
      | some v => some v
      | none => lookupA l₂ k := by
  induction l₁ with
  | nil => simp [lookupA]
  | cons p rest ih =>
    obtain ⟨k', v⟩ := p
    by_cases h : k' == k <;> simp [lookupA, h, ih]

theorem lookupA_filter_key {β : Type} (l : List (String × β)) (p : String × β → Bool)
    (k : String) (hp : ∀ v, p (k, v) = true) :
    lookupA (l.filter p) k = lookupA l k := by
  induction l with
  | nil => rfl
  | cons q rest ih =>
    obtain ⟨k', v⟩ := q
    by_cases hk : k' = k
    · subst hk
      rw [List.filter_cons, hp v]
      simp [lookupA, ih]
    · rw [List.filter_cons]
      by_cases hq : p (k', v) <;> simp [hq, lookupA, hk, ih]

theorem lookupA_filter_not_key {β : Type} (l : List (String × β)) (p : String × β → Bool)
    (k : String) (hp : ∀ v, p (k, v) = false) :
    lookupA (l.filter p) k = none := by
  induction l with
  | nil => rfl
  | cons q rest ih =>
    obtain ⟨k', v⟩ := q
    by_cases hk : k' = k
    · subst hk
      rw [List.filter_cons, hp v]
      simpa using ih
    · rw [List.filter_cons]
      by_cases hq : p (k', v) <;> simp [hq, lookupA, hk, ih]

/-- Lookup in `objAssign target source`: `source` wins per whole entry,
otherwise the `target` binding shows through. -/
theorem lookupA_objAssign {β : Type} (target source : List (String × β)) (k : String) :
    lookupA (objAssign target source) k =
      match lookupA source k with
      | some v => some v
      | none => lookupA target k := by
  unfold objAssign
  rw [lookupA_append]
  rw [lookupA_map_value target (fun kk vv => (lookupA source kk).getD vv) k]
  cases ht : lookupA target k with
  | some v =>
    cases hs : lookupA source k with
    | some w => simp [hs]
    | none => simp [hs]
  | none =>
    have hkey : (target.map Prod.fst).contains k = false := by
      rw [← lookupA_isSome_iff_keyMem, ht]
      rfl
    rw [lookupA_filter_key]
    · cases lookupA source k <;> rfl
    · intro v
      show decide (¬ (target.map Prod.fst).contains k = true) = true
      rw [hkey]
      simp

/-! ## Mock definitions and mock functions (`src/mockResolver.js`) -/

/-- One expected call of a mock (`{ in, out, throws }` entry of a
`calls:` list).  Absent fields are `vUndefined`, exactly as property access
on the parsed YAML object yields `undefined`. -/
structure ExpectedCall where
  argsIn : Value
  out : Value
  throws : Value
deriving Repr, Inhabited

/-- A mock definition: its ordered list of expected calls. -/
structure MockDef where
  calls : List ExpectedCall
deriving Repr, Inhabited

/-- Shallow embedding of `resolveMocks(caseMocks, suiteMocks, globalMocks)`:
`Object.assign({}, globalMocks, suiteMocks, caseMocks)` — later sources
override earlier ones per whole entry. -/
def resolveMocks (caseMocks suiteMocks globalMocks : List (String × MockDef)) :
    List (String × MockDef) :=
  objAssign (objAssign globalMocks suiteMocks) caseMocks

/-- Runtime state of one mock function created by `createMockFunction`:
its name, the expected-call list, the handle of the underlying `vi.fn`
function value, and the mutable `callIndex` cursor (0 at creation). -/
structure MockEntry where
  mockName : String
  calls : List ExpectedCall
  funcId : Nat
  cursor : Nat
deriving Repr, Inhabited

/-- Model of `createMockFunction(mockName, mockDefinition)`; `funcId` is the
fresh handle of the created `vi.fn` function object. -/
def createMockFunction (mockName : String) (mockDefinition : MockDef)
    (funcId : Nat) : MockEntry :=
  { mockName := mockName, calls := mockDefinition.calls, funcId := funcId, cursor := 0 }

/-- The `expectedCalls` field of the wrapper returned by
`createMockFunction`: `calls.length`. -/
def MockEntry.expectedCalls (m : MockEntry) : Nat :=
  m.calls.length

/-- Model of `createMockFunctions(resolvedMocks)`: one fresh mock function
per resolved entry (handles are made distinct by enumeration, modelling the
freshness of each `vi.fn()` object). -/
def createMockFunctions (resolvedMocks : List (String × MockDef)) :
    List (String × MockEntry) :=
  resolvedMocks.enum.map fun (i, (mockName, mockDef)) =>
    (mockName, createMockFunction mockName mockDef i)

/-- Outcome of invoking a mock function once. -/
inductive MockInvokeResult where
  /-- The cursor call matched; the declared `out` value is returned. -/
  | ret (v : Value)
  /-- The cursor call matched and declares a truthy `throws`: the mock
  raises `Error(expectedCall.throws)` by design. -/
  | designedThrow (msg : Value)
  /-- Call-count violation: invoked more often than `calls.length`;
  carries the reported actual (`callIndex + 1`) and expected counts. -/
  | callCountErr (actual expected : Nat)
  /-- Argument mismatch at the cursor: carries the rendered expected
  (`expectedCall.in`) and actual (`args`) argument lists. -/
  | argMismatchErr (expected actual : Value)
deriving Repr

/-- Shallow embedding of one invocation of the function produced by
`createMockFunction`: `args` is the actual-arguments array.  Returns the
outcome together with the new cursor (`callIndex` increments exactly when
the expected call at the cursor matches, also on a designed throw). -/
def mockInvoke (calls : List ExpectedCall) (cursor : Nat) (args : Value) :
    MockInvokeResult × Nat :=
  if h : cursor < calls.length then
    let expectedCall := calls.get ⟨cursor, h⟩
    if deepEqual args expectedCall.argsIn then
      if expectedCall.throws.jsTruthy then
        (.designedThrow expectedCall.throws, cursor + 1)
      else
        (.ret expectedCall.out, cursor + 1)
    else
      (.argMismatchErr expectedCall.argsIn args, cursor)
  else
    (.callCountErr (cursor + 1) calls.length, cursor)

/-- Model of the `validate` closure of a mock wrapper: fails exactly when
the cursor differs from `calls.length`, reporting both counts. -/
def mockValidate (m : MockEntry) : Except (String × Nat × Nat) Unit :=
  if m.cursor == m.calls.length then .ok ()
  else .error (m.mockName, m.cursor, m.calls.length)

/-- Model of `validateMockCalls(mockFunctions)`: validates every wrapper in
order, surfacing the first failure. -/
def validateMockCalls (mockFunctions : List (String × MockEntry)) :
    Except (String × Nat × Nat) Unit :=
  match mockFunctions with
  | [] => .ok ()
  | (_, m) :: rest =>
    match mockValidate m with
    | .error e => .error e
    | .ok _ => validateMockCalls rest

/-- Sequentially invokes one mock with the given list of actual-argument
arrays, threading the cursor and collecting each outcome (the harness that
catches a designed throw may keep calling, so the sequence continues after
every outcome, as the cursor state machine does). -/
def mockInvokeSeq (calls : List ExpectedCall) (cursor : Nat) :
    List Value → List MockInvokeResult × Nat
  | [] => ([], cursor)
  | args :: rest =>
    let (r, cursor') := mockInvoke calls cursor args
    let (rs, cursorEnd) := mockInvokeSeq calls cursor' rest
    (r :: rs, cursorEnd)

/-! ## Mock reference substitution (`processMockReferences`) -/


/-- Model of `value.startsWith("$mock:")` over the character list (the
sentinel is ASCII, where JavaScript UTF-16 code units and characters agree;
`String.data` keeps the check kernel-computable). -/
def startsWithMock (s : String) : Bool :=
  ("$mock:".data).isPrefixOf s.data

/-- Model of `value.substring(6)` (removal of the six sentinel characters). -/
def dropMock (s : String) : String :=
  String.mk (s.data.drop 6)

mutual

/-- Shallow embedding of `processMockReferences(value, mockFunctions)`:

* a string starting with the sentinel `"$mock:"` is replaced by the mock
  wrapper's `.mockFunction` value, or the whole walk fails when the name
  after the sentinel is not bound in the map (`!mockFunctions[mockName]`;
  wrapper objects are always truthy, so falsiness is exactly absence),
* arrays are mapped element-wise, objects field-wise (shape preserved),
* every other value is returned unchanged. -/
def processMockReferences (value : Value) (mockFunctions : List (String × MockEntry)) :
    Except String Value :=
  match value with
  | .vStr s =>
    if startsWithMock s then
      match lookupA mockFunctions (dropMock s) with
      | none => .error ("Mock " ++ dropMock s ++ " is referenced but not defined")
      | some wrapper => .ok (.vFunc wrapper.funcId)
    else .ok (.vStr s)
  | .vArr elems => (processMockList elems mockFunctions).map .vArr
  | .vObj fields => (processMockFields fields mockFunctions).map .vObj
  | v => .ok v

/-- Element-wise walk of `processMockReferences` over an array. -/
def processMockList (elems : List Value) (mockFunctions : List (String × MockEntry)) :
    Except String (List Value) :=
  match elems with
  | [] => .ok []
  | e :: rest =>
    match processMockReferences e mockFunctions with
    | .error m => .error m
    | .ok e2 =>
      match processMockList rest mockFunctions with
      | .error m => .error m
      | .ok rest2 => .ok (e2 :: rest2)

/-- Field-wise walk of `processMockReferences` over an object. -/
def processMockFields (fields : List (String × Value))
    (mockFunctions : List (String × MockEntry)) :
    Except String (List (String × Value)) :=
  match fields with
  | [] => .ok []
  | (k, v) :: rest =>
    match processMockReferences v mockFunctions with
    | .error m => .error m
    | .ok v2 =>
      match processMockFields rest mockFunctions with
      | .error m => .error m
      | .ok rest2 => .ok ((k, v2) :: rest2)

end

/-! ## Dynamic path resolution (`getNestedProperty` / `callNestedMethod`) -/

/-- Failure modes of the dot-path resolver, mirroring the thrown messages of
`src/puty.js`.  Each constructor carries the data the message renders. -/
inductive PathErr where
  /-- Cannot access property `seg` of null/undefined in path `path`. -/
  | nullProp (seg path : String)
  /-- Property `seg` not found in path `path`. -/
  | propMissing (seg path : String)
  /-- The JavaScript `in` operator threw: the value reached before `seg` is
  a primitive (number, string or boolean).  The raw TypeError names the
  segment searched for but not the dot-path. -/
  | inTypeErr (seg : String)
  /-- Cannot access method `seg` of null/undefined in path `path`. -/
  | nullMethod (seg path : String)
  /-- Method `seg` not found in path `path`. -/
  | methodMissing (seg path : String)
  /-- The terminal segment `seg` exists but is not a function. -/
  | notCallable (seg path : String)
deriving Repr

/-- The dot-path named by a resolver error, when its message renders one
(the raw `in`-operator TypeError does not). -/
def PathErr.namedPath : PathErr → Option String
  | .nullProp _ p => some p
  | .propMissing _ p => some p
  | .inTypeErr _ => none
  | .nullMethod _ p => some p
  | .methodMissing _ p => some p
  | .notCallable _ p => some p

/-- The segment named by a resolver error (every message renders one). -/
def PathErr.namedSeg : PathErr → String
  | .nullProp s _ => s
  | .propMissing s _ => s
  | .inTypeErr s => s
  | .nullMethod s _ => s
  | .methodMissing s _ => s
  | .notCallable s _ => s

/-- Model of the JavaScript `in` operator `k in v`: defined (`some`) for
objects, arrays and functions, a TypeError (`none`) for primitives.  Own
keys only: array index keys are modelled, prototype-chain and function
object properties are out of the model (the object graphs of the claims are
plain data with function leaves). -/
def jsHasIn (v : Value) (k : String) : Option Bool :=
  match v with
  | .vObj fields => some ((fields.map Prod.fst).contains k)
  | .vArr elems => some (((List.range elems.length).map toString).contains k)
  | .vFunc _ => some false
  | _ => none

/-- Property read `v[k]` on a non-null value (used only after a successful
`in` check): object field, array index, `undefined` otherwise. -/
def jsIndex (v : Value) (k : String) : Value :=
  match v with
  | .vObj fields => (jsLookup fields k).getD .vUndefined
  | .vArr elems =>
    match (elems.zip (List.range elems.length)).find? (fun (_, i) => toString i == k) with
    | some (e, _) => e
    | none => .vUndefined
  | _ => .vUndefined

/-- Model of `path.split(".")` over the character list (kernel-computable;
the dot is ASCII, so UTF-16 and character splitting agree). -/
def splitDots (path : String) : List String :=
  (path.data.splitOn (Char.ofNat 46)).map fun cs => String.mk cs

/-- The property-walking loop shared by `getNestedProperty` (over the whole
split path) and `callNestedMethod` (over all but the last segment): at each
segment, a nullish current value or a missing property aborts with an error
naming that segment and the full original path. -/
def walkProps (current : Value) (parts : List String) (fullPath : String) :
    Except PathErr Value :=
  match parts with
  | [] => .ok current
  | seg :: rest =>
    if current.isNullish then .error (.nullProp seg fullPath)
    else
      match jsHasIn current seg with
      | none => .error (.inTypeErr seg)
      | some false => .error (.propMissing seg fullPath)
      | some true => walkProps (jsIndex current seg) rest fullPath

/-- Shallow embedding of `getNestedProperty(obj, path)`. -/
def getNestedProperty (obj : Value) (path : String) : Except PathErr Value :=
  walkProps obj (splitDots path) path

/-- The terminal phase of `callNestedMethod`: after walking to the parent,
resolve the method segment to a function handle (nullish parent, missing
member and non-function member each fail with their own message). -/
def resolveMethodAt (parent : Value) (methodName path : String) :
    Except PathErr Nat :=
  if parent.isNullish then .error (.nullMethod methodName path)
  else
    match jsHasIn parent methodName with
    | none => .error (.inTypeErr methodName)
    | some false => .error (.methodMissing methodName path)
    | some true =>
      match jsIndex parent methodName with
      | .vFunc id => .ok id
      | _ => .error (.notCallable methodName path)

/-- Shallow embedding of `callNestedMethod(obj, path, args)`: split the
path, pop the method name, walk the leading segments as property reads,
then resolve and invoke the method.  The behaviour of the invoked member is
the environment `impl` (a handle-indexed function returning a value or a
thrown message), so the call result `impl id args` is returned, a raised
failure propagating inside the inner `Except`. -/
def callNestedMethod (impl : Nat → List Value → Except String Value)
    (obj : Value) (path : String) (args : List Value) :
    Except PathErr (Except String Value) :=
  let parts := (splitDots path).dropLast
  let methodName := (splitDots path).getLastD ""
  match walkProps obj parts path with
  | .error e => .error e
  | .ok parent =>
    match resolveMethodAt parent methodName path with
    | .error e => .error e
    | .ok id => .ok (impl id args)

/-! ## Document-stream normalizers (`processDocuments` and `parseYamlDocuments`) -/

/-- JavaScript property read `doc.key` as the normalizers perform it on each
document of the stream: throws a TypeError on `null`/`undefined`, yields the
own property (or `undefined`) otherwise. -/
def jsGetProp (v : Value) (k : String) : Except String Value :=
  match v with
  | .vNull => .error ("TypeError: Cannot read properties of null (reading " ++ k ++ ")")
  | .vUndefined => .error ("TypeError: Cannot read properties of undefined (reading " ++ k ++ ")")
  | .vObj fields => .ok ((jsLookup fields k).getD .vUndefined)
  | _ => .ok .vUndefined

/-- Total variant of `jsGetProp` (the value a non-nullish document yields;
`vUndefined` for nullish ones) used to state which documents the normalizer
recognizes. -/
def docField (v : Value) (k : String) : Value :=
  match v with
  | .vObj fields => (jsLookup fields k).getD .vUndefined
  | _ => .vUndefined

/-- The open suite being accumulated by `processDocuments` in `utils.js`
(the include-resolving pipeline's normalizer, which carries no mocks). -/
structure SuiteAccP where
  name : Value
  exportName : Value
  isClass : Bool
  ctorArgs : Value
  cases : List Value
deriving Repr, Inhabited

/-- Renders the suite object `processDocuments` builds: literal keys
`name`, `exportName`, `cases`, then `mode` / `constructorArgs` appended only
when the suite document declared `mode: "class"`. -/
def renderSuiteP (s : SuiteAccP) : Value :=
  .vObj ([("name", s.name), ("exportName", s.exportName), ("cases", .vArr s.cases)] ++
    (if s.isClass then [("mode", .vStr "class"), ("constructorArgs", s.ctorArgs)] else []))

/-- Fold state of `processDocuments`: the config header fields, the closed
suites and the mutable current-suite reference. -/
structure NormStateP where
  file : Value
  group : Value
  suiteNames : Option Value
  suites : List Value
  currentSuite : Option SuiteAccP
deriving Repr, Inhabited

/-- Initial state: `{ file: null, group: null, suites: [] }`. -/
def initStateP : NormStateP :=
  { file := .vNull, group := .vNull, suiteNames := none, suites := [], currentSuite := none }

/-- One iteration of the `processDocuments` loop (`utils.js`), faithful to
the branch structure `doc.file` / `doc.suite` / `doc.case && currentSuite`
with all `||` defaultings; property access on a nullish document throws. -/
def stepDocP (st : NormStateP) (doc : Value) : Except String NormStateP := do
  let fileV ← jsGetProp doc "file"
  if fileV.jsTruthy then
    let groupV ← jsGetProp doc "group"
    let nameV ← jsGetProp doc "name"
    let suitesV ← jsGetProp doc "suites"
    return { st with
      file := fileV,
      group := if groupV.jsTruthy then groupV else nameV,
      suiteNames := if suitesV.jsTruthy then some suitesV else st.suiteNames }
  else
    let suiteV ← jsGetProp doc "suite"
    if suiteV.jsTruthy then
      let exportV ← jsGetProp doc "exportName"
      let modeV ← jsGetProp doc "mode"
      let ctorV ← jsGetProp doc "constructorArgs"
      let newSuite : SuiteAccP :=
        { name := suiteV,
          exportName := if exportV.jsTruthy then exportV else suiteV,
          isClass := strictEq modeV (.vStr "class"),
          ctorArgs := if ctorV.jsTruthy then ctorV else .vArr [],
          cases := [] }
      return { st with
        suites := st.suites ++ (match st.currentSuite with
          | some cur => [renderSuiteP cur]
          | none => []),
        currentSuite := some newSuite }
    else
      let caseV ← jsGetProp doc "case"
      match st.currentSuite with
      | some cur =>
        if caseV.jsTruthy then
          if cur.isClass then
            let exeV ← jsGetProp doc "executions"
            let c := Value.vObj [("name", caseV),
              ("executions", if exeV.jsTruthy then exeV else .vArr [])]
            return { st with currentSuite := some { cur with cases := cur.cases ++ [c] } }
          else
            let inV ← jsGetProp doc "in"
            let outV ← jsGetProp doc "out"
            let throwsV ← jsGetProp doc "throws"
            let c := Value.vObj ([("name", caseV),
              ("in", if inV.jsTruthy then inV else .vArr []),
              ("out", outV)] ++
              (if throwsV.jsTruthy then [("throws", throwsV)] else []))
            return { st with currentSuite := some { cur with cases := cur.cases ++ [c] } }
        else
          return st
      | none =>
        return st

/-- Renders the final config object of `processDocuments`: literal keys
`file`, `group`, `suites`, with `suiteNames` appended when some header
document carried a truthy `suites` field; the still-open suite is flushed. -/
def renderConfigP (st : NormStateP) : Value :=
  .vObj ([("file", st.file), ("group", st.group),
    ("suites", .vArr (st.suites ++ (match st.currentSuite with
      | some cur => [renderSuiteP cur]
      | none => [])))] ++
    (match st.suiteNames with
      | some names => [("suiteNames", names)]
      | none => []))

/-- Fold of `stepDocP` over the document list. -/
def processDocsFold (st : NormStateP) : List Value → Except String NormStateP
  | [] => .ok st
  | d :: rest =>
    match stepDocP st d with
    | .error m => .error m
    | .ok st2 => processDocsFold st2 rest

/-- Shallow embedding of `processDocuments(docs)` from `utils.js` (the
normalizer the include pipeline uses). -/
def processDocumentsV (docs : List Value) : Except String Value :=
  (processDocsFold initStateP docs).map renderConfigP

/-- The open suite accumulated by `parseYamlDocuments` in `puty.js` (this
normalizer carries suite-level mocks). -/
structure SuiteAccY where
  name : Value
  exportName : Value
  mocks : Value
  isClass : Bool
  ctorArgs : Value
  cases : List Value
deriving Repr, Inhabited

/-- Renders the suite object `parseYamlDocuments` builds: keys `name`,
`exportName`, `mocks`, `cases`, then the class-mode keys. -/
def renderSuiteY (s : SuiteAccY) : Value :=
  .vObj ([("name", s.name), ("exportName", s.exportName), ("mocks", s.mocks),
    ("cases", .vArr s.cases)] ++
    (if s.isClass then [("mode", .vStr "class"), ("constructorArgs", s.ctorArgs)] else []))

/-- Fold state of `parseYamlDocuments`: the header fields (including the
global `mocks`), the closed suites and the current-suite reference. -/
structure NormStateY where
  file : Value
  group : Value
  mocks : Value
  suiteNames : Option Value
  suites : List Value
  currentSuite : Option SuiteAccY
deriving Repr, Inhabited

/-- Initial state: `{ file: null, group: null, mocks: {}, suites: [] }`. -/
def initStateY : NormStateY :=
  { file := .vNull, group := .vNull, mocks := .vObj [], suiteNames := none,
    suites := [], currentSuite := none }

/-- One iteration of the `parseYamlDocuments` loop (`puty.js`); identical to
`stepDocP` except that header, suite and case documents also carry their
`mocks` (defaulted to `{}`) and each case an initial `resolvedMocks: null`. -/
def stepDocY (st : NormStateY) (doc : Value) : Except String NormStateY := do
  let fileV ← jsGetProp doc "file"
  if fileV.jsTruthy then
    let groupV ← jsGetProp doc "group"
    let nameV ← jsGetProp doc "name"
    let mocksV ← jsGetProp doc "mocks"
    let suitesV ← jsGetProp doc "suites"
    return { st with
      file := fileV,
      group := if groupV.jsTruthy then groupV else nameV,
      mocks := if mocksV.jsTruthy then mocksV else .vObj [],
      suiteNames := if suitesV.jsTruthy then some suitesV else st.suiteNames }
  else
    let suiteV ← jsGetProp doc "suite"
    if suiteV.jsTruthy then
      let exportV ← jsGetProp doc "exportName"
      let mocksV ← jsGetProp doc "mocks"
      let modeV ← jsGetProp doc "mode"
      let ctorV ← jsGetProp doc "constructorArgs"
      let newSuite : SuiteAccY :=
        { name := suiteV,
          exportName := if exportV.jsTruthy then exportV else suiteV,
          mocks := if mocksV.jsTruthy then mocksV else .vObj [],
          isClass := strictEq modeV (.vStr "class"),
          ctorArgs := if ctorV.jsTruthy then ctorV else .vArr [],
          cases := [] }
      return { st with
        suites := st.suites ++ (match st.currentSuite with
          | some cur => [renderSuiteY cur]
          | none => []),
        currentSuite := some newSuite }
    else
      let caseV ← jsGetProp doc "case"
      match st.currentSuite with
      | some cur =>
        if caseV.jsTruthy then
          let mocksV ← jsGetProp doc "mocks"
          let mocksDefaulted := if mocksV.jsTruthy then mocksV else Value.vObj []
          if cur.isClass then
            let exeV ← jsGetProp doc "executions"
            let c := Value.vObj [("name", caseV), ("mocks", mocksDefaulted),
              ("resolvedMocks", .vNull),
              ("executions", if exeV.jsTruthy then exeV else .vArr [])]
            return { st with currentSuite := some { cur with cases := cur.cases ++ [c] } }
          else
            let inV ← jsGetProp doc "in"
            let outV ← jsGetProp doc "out"
            let throwsV ← jsGetProp doc "throws"
            let c := Value.vObj ([("name", caseV), ("mocks", mocksDefaulted),
              ("resolvedMocks", .vNull),
              ("in", if inV.jsTruthy then inV else .vArr []),
              ("out", outV)] ++
              (if throwsV.jsTruthy then [("throws", throwsV)] else []))
            return { st with currentSuite := some { cur with cases := cur.cases ++ [c] } }
        else
          return st
      | none =>
        return st

/-- Renders the final config object of `parseYamlDocuments`: keys `file`,
`group`, `mocks`, `suites`, with `suiteNames` appended when set. -/
def renderConfigY (st : NormStateY) : Value :=
  .vObj ([("file", st.file), ("group", st.group), ("mocks", st.mocks),
    ("suites", .vArr (st.suites ++ (match st.currentSuite with
      | some cur => [renderSuiteY cur]
      | none => [])))] ++
    (match st.suiteNames with
      | some names => [("suiteNames", names)]
      | none => []))

/-- Fold of `stepDocY` over the document list. -/
def parseDocsFold (st : NormStateY) : List Value → Except String NormStateY
  | [] => .ok st
  | d :: rest =>
    match stepDocY st d with
    | .error m => .error m
    | .ok st2 => parseDocsFold st2 rest

/-- Shallow embedding of the normalization loop of `parseYamlDocuments`
(`puty.js`) applied to an already-parsed document stream (the surrounding
`yaml.loadAll` text parsing is the external YAML library). -/
def parseYamlDocumentsV (docs : List Value) : Except String Value :=
  (parseDocsFold initStateY docs).map renderConfigY

/-! ## Include resolution (`loadYamlWithPath`, `utils.js`) -/

/-- A parsed-but-unresolved YAML node: plain content (`leaf` holds any
value whose inside contains no include directive), sequences, mappings, and
the scalar `!include` directive.  The include target is modelled as the
already-canonicalized absolute path (`path.resolve(dirname(current), p)` is
string bookkeeping the claims do not touch). -/
inductive Node where
  | leaf (v : Value)
  | arr (elems : List Node)
  | obj (fields : List (String × Node))
  | include (target : String)
deriving Repr, Inhabited

/-- Errors of the include resolver.  `loadYamlWithPath` wraps any error
escaping its parse phase as `Error loading YAML file <path>: <inner>`, so
nested failures accumulate `wrapped` layers; the circular-dependency check
sits before the `try` and escapes unwrapped at its own level. -/
inductive LoadErr where
  /-- Circular dependency detected: `path` is already being processed. -/
  | circular (path : String)
  /-- Include file not found: `target` (included from `from_`). -/
  | notFound (target from_ : String)
  /-- The file itself could not be read (top-level missing file). -/
  | readFail
  /-- Error loading YAML file `file`: wraps the inner error's message. -/
  | wrapped (file : String) (inner : LoadErr)
  /-- Out of modelling fuel (never reached at the stated fuel bounds). -/
  | fuelOut
deriving Repr

/-- A filesystem of already-parsed YAML files: canonical path to document
list (one `Node` per `---`-separated document). -/
def FileSys := List (String × List Node)

/-- Lookup of a file, the model of `fs.existsSync` + `fs.readFileSync`. -/
def lookupFile (fs : FileSys) (path : String) : Option (List Node) :=
  lookupA fs path

mutual

/-- Shallow embedding of `loadYamlWithPath(filePath, visitedFiles)`
(`utils.js`):

* if the canonical path is in the visited set: throw circular (before the
  `try`, hence unwrapped at this level);
* otherwise parse the file with the visited set extended by the current
  path — each nested include receives `new Set(visitedFiles)`, a copy, so
  the functional extension models the mutation-plus-`finally`-delete of the
  source exactly;
* any error escaping the parse (including errors of nested includes) is
  wrapped as `Error loading YAML file <path>: ...`;
* a one-document file yields that document, otherwise the document array.

The `fuel` argument makes the recursion structural; all claims are stated
at fuel values proven sufficient. -/
def loadYamlF (fs : FileSys) : Nat → String → List String → Except LoadErr Value
  | 0, _, _ => .error .fuelOut
  | fuel + 1, path, visited =>
    if path ∈ visited then .error (.circular path)
    else
      match lookupFile fs path with
      | none => .error (.wrapped path .readFail)
      | some docs =>
        match resolveNodesF fs fuel path (path :: visited) docs with
        | .error e => .error (.wrapped path e)
        | .ok vs =>
          match vs with
          | [v] => .ok v
          | _ => .ok (.vArr vs)
termination_by fuel _ _ => (fuel, 0)

/-- Resolves a list of nodes (documents or sequence elements) in order,
stopping at the first error, as the depth-first YAML construct pass does. -/
def resolveNodesF (fs : FileSys) (fuel : Nat) (cur : String) (visited : List String) :
    List Node → Except LoadErr (List Value)
  | [] => .ok []
  | d :: rest =>
    match resolveNodeF fs fuel cur visited d with
    | .error e => .error e
    | .ok v =>
      match resolveNodesF fs fuel cur visited rest with
      | .error e => .error e
      | .ok vs => .ok (v :: vs)
termination_by l => (fuel, sizeOf l)

/-- Resolves the fields of a mapping in order. -/
def resolveFieldsF (fs : FileSys) (fuel : Nat) (cur : String) (visited : List String) :
    List (String × Node) → Except LoadErr (List (String × Value))
  | [] => .ok []
  | (k, n) :: rest =>
    match resolveNodeF fs fuel cur visited n with
    | .error e => .error e
    | .ok v =>
      match resolveFieldsF fs fuel cur visited rest with
      | .error e => .error e
      | .ok vs => .ok ((k, v) :: vs)
termination_by l => (fuel, sizeOf l)

/-- Resolves one node: plain content passes through, composites recurse,
and an `!include` directive checks `fs.existsSync` (failing with the
not-found error naming the target and the including file) and then loads
the target with the extended visited set. -/
def resolveNodeF (fs : FileSys) (fuel : Nat) (cur : String) (visited : List String) :
    Node → Except LoadErr Value
  | .leaf v => .ok v
  | .arr elems => (resolveNodesF fs fuel cur visited elems).map .vArr
  | .obj fields => (resolveFieldsF fs fuel cur visited fields).map .vObj
  | .include target =>
    if (lookupFile fs target).isNone then .error (.notFound target cur)
    else loadYamlF fs fuel target visited
termination_by n => (fuel, sizeOf n)

end

/-- Fuel sufficient for any load from `fs`: the visited set grows at every
nested load and only paths present in `fs` recurse, so include depth never
exceeds the file count. -/
def boundFuel (fs : FileSys) : Nat :=
  fs.length + 1

/-- `loadYamlWithPath(filePath)` with the default empty visited set. -/
def loadYamlWithPath (fs : FileSys) (path : String) : Except LoadErr Value :=
  loadYamlF fs (boundFuel fs) path []

mutual

/-- Shallow embedding of `flattenDocuments(data)` (`utils.js`): a non-array
becomes a singleton, nested arrays are flattened recursively. -/
def flattenDocuments : Value → List Value
  | .vArr items => flattenItems items
  | v => [v]

/-- The loop of `flattenDocuments` over an array's items. -/
def flattenItems : List Value → List Value
  | [] => []
  | .vArr xs :: rest => flattenItems xs ++ flattenItems rest
  | item :: rest => item :: flattenItems rest

end

/-- Shallow embedding of `parseWithIncludes(filePath)` (`utils.js`): load
with includes, flatten multi-document nesting, then normalize with
`processDocuments`. -/
def parseWithIncludes (fs : FileSys) (path : String) : Except LoadErr Value :=
  match loadYamlWithPath fs path with
  | .error e => .error e
  | .ok data =>
    match processDocumentsV (flattenDocuments data) with
    | .error m => .error (.wrapped m .readFail)
    | .ok config => .ok config

/-! ## Case execution (`setupFunctionTests` / `setupClassTests`, `puty.js`) -/

/-- vitest's `toEqual` structural equality.  For the control-flow claims the
comparison function only selects the pass/fail branch, so it is modelled by
the same structural deep equality as the mock comparator. -/
def toEqual (a b : Value) : Bool :=
  deepEqual a b

/-- Containment of one character sequence in another. -/
def containsSeq (needle : List Char) : List Char → Bool
  | [] => needle.isEmpty
  | c :: rest => needle.isPrefixOf (c :: rest) || containsSeq needle rest

/-- Substring containment, the semantics of vitest's `toThrow(string)`
message matching (over character lists, kernel-computable). -/
def strContains (hay needle : String) : Bool :=
  containsSeq needle.data hay.data

/-- Matching of a thrown message against the case's `throws` field (vitest
`toThrow`): string patterns match by containment; non-string patterns
(regexes are not produced by the YAML model) match nothing. -/
def toThrowMatches (msg : String) (spec : Value) : Bool :=
  match spec with
  | .vStr s => strContains msg s
  | _ => false

/-- Rendering of a path-resolver error to its thrown message text (used
when such an error crosses `expect(...).toThrow` or fails a case). -/
def pathErrMsg : PathErr → String
  | .nullProp seg path => "Cannot access property " ++ seg ++ " of nullish in path " ++ path
  | .propMissing seg path => "Property " ++ seg ++ " not found in path " ++ path
  | .inTypeErr seg => "TypeError: cannot use in operator to search for " ++ seg
  | .nullMethod seg path => "Cannot access method " ++ seg ++ " of nullish in path " ++ path
  | .methodMissing seg path => "Method " ++ seg ++ " not found in path " ++ path
  | .notCallable seg path => seg ++ " is not a function in path " ++ path

/-- Failure modes of one test case, as the runner reports them. -/
inductive CaseErr where
  /-- Function not found for test case (thrown before the `try`). -/
  | fnNotFound (name : String)
  /-- Class not found for test suite (thrown before the `try`). -/
  | classNotFound (suiteName : String)
  /-- `expect(...).toThrow` failed: nothing was thrown. -/
  | expectedThrowButReturned (spec : Value)
  /-- `expect(...).toThrow` failed: the thrown message did not match. -/
  | throwMismatch (actualMsg : String) (spec : Value)
  /-- `expect(out).toEqual(expected)` failed. -/
  | outMismatch (actual expected : Value)
  /-- An exception escaped the case body (unit under test, mock argument
  mismatch or count overflow, or path resolution). -/
  | uncaught (msg : String)
  /-- `validateMockCalls` failed: the named mock was called `actual`
  time(s) but expected exactly `expected` calls. -/
  | mockCallCount (name : String) (actual expected : Nat)
deriving Repr

/-- The mock-function map owned by one case (name to runtime entry). -/
def MockEnv := List (String × MockEntry)

/-- The unit under test in function mode: receives the (substituted)
argument list and the current mock states, returns its value or thrown
message together with the mock states after any mock invocations it made.
This is the environment abstraction of arbitrary JavaScript code whose only
effect visible to the runner is through the mocks. -/
def FnImpl := List Value → MockEnv → Except String Value × MockEnv

/-- Method behaviour of the instance under test in class mode, indexed by
the function handle the path resolver produced. -/
def ClassImpl := Nat → List Value → MockEnv → Except String Value × MockEnv

/-- Observable trace of running one case: the reported result, whether the
mock finalize (`validateMockCalls`) executed, and whether the mock cleanup
(`mockClear` loop of the `finally` block) executed. -/
structure RunTrace where
  result : Except CaseErr Unit
  validated : Bool
  cleaned : Bool

/-- Argument spread `f(...(inArg || []))`: the defaulted value is an array
whose elements become the argument list. -/
def spreadArgs (v : Value) : List Value :=
  match v with
  | .vArr xs => xs
  | _ => []

/-- The `try`-block body of a function-mode case (`setupFunctionTests`):
either the expected-throw assertion or the call-and-compare assertion. -/
def functionCaseBody (f : FnImpl) (inArg : List Value) (expectedOut : Value)
    (throwsV : Value) (mocks : MockEnv) : Except CaseErr Unit × MockEnv :=
  if throwsV.jsTruthy then
    match f inArg mocks with
    | (.error m, mocks') =>
      if toThrowMatches m throwsV then (.ok (), mocks')
      else (.error (.throwMismatch m throwsV), mocks')
    | (.ok _, mocks') => (.error (.expectedThrowButReturned throwsV), mocks')
  else
    match f inArg mocks with
    | (.error m, mocks') => (.error (.uncaught m), mocks')
    | (.ok out, mocks') =>
      if toEqual out expectedOut then (.ok (), mocks')
      else (.error (.outMismatch out expectedOut), mocks')

/-- Shallow embedding of one registered test of `setupFunctionTests`:

* a missing `functionUnderTest` throws before the `try` (no cleanup),
* the case body runs inside `try`,
* `validateMockCalls` runs after the body, still inside `try`, only when
  the mock map is non-empty,
* the `finally` block clears the mocks on every path through the `try`. -/
def runFunctionCase (functionUnderTest : Option FnImpl) (inArg : List Value)
    (expectedOut : Value) (throwsV : Value) (mockFunctions : MockEnv)
    (caseName : String) : RunTrace :=
  match functionUnderTest with
  | none => { result := .error (.fnNotFound caseName), validated := false, cleaned := false }
  | some f =>
    let (bodyRes, mocksAfter) := functionCaseBody f inArg expectedOut throwsV mockFunctions
    match bodyRes with
    | .error e => { result := .error e, validated := false, cleaned := true }
    | .ok _ =>
      if mockFunctions.length > 0 then
        match validateMockCalls mocksAfter with
        | .error (n, a, b) =>
          { result := .error (.mockCallCount n a b), validated := true, cleaned := true }
        | .ok _ => { result := .ok (), validated := true, cleaned := true }
      else { result := .ok (), validated := false, cleaned := true }

/-- One assertion of a class-mode execution (`assertion.property` /
`assertion.method`; anything else is silently skipped, as is a `property`
assertion whose `op` is not the recognized `"eq"`). -/
inductive AssertSpec where
  | propertyA (path : String) (op : String) (value : Value)
  | methodA (path : String) (inArgs : List Value) (out : Value)
  | inert

/-- One entry of a class-mode case's `executions` list. -/
structure ExecutionSpec where
  method : String
  inArgs : List Value
  out : Value
  throwsV : Value
  asserts : List AssertSpec

/-- Stateful variant of `callNestedMethod` as the class runner uses it: the
path walk is pure, the invocation threads the mock states; a path error is
thrown as its rendered message. -/
def callNestedMethodSt (impl : ClassImpl) (inst : Value) (path : String)
    (args : List Value) (mocks : MockEnv) : Except String Value × MockEnv :=
  match walkProps inst ((splitDots path).dropLast) path with
  | .error pe => (.error (pathErrMsg pe), mocks)
  | .ok parent =>
    match resolveMethodAt parent ((splitDots path).getLastD "") path with
    | .error pe => (.error (pathErrMsg pe), mocks)
    | .ok id => impl id args mocks

/-- The assertion loop at the end of one class-mode execution. -/
def runAsserts (impl : ClassImpl) (inst : Value) (asserts : List AssertSpec)
    (mocks : MockEnv) : Except CaseErr Unit × MockEnv :=
  match asserts with
  | [] => (.ok (), mocks)
  | .propertyA path op value :: rest =>
    match getNestedProperty inst path with
    | .error pe => (.error (.uncaught (pathErrMsg pe)), mocks)
    | .ok actual =>
      if op == "eq" then
        if toEqual actual value then runAsserts impl inst rest mocks
        else (.error (.outMismatch actual value), mocks)
      else runAsserts impl inst rest mocks
  | .methodA path inArgs out :: rest =>
    match callNestedMethodSt impl inst path inArgs mocks with
    | (.error m, mocks') => (.error (.uncaught m), mocks')
    | (.ok result, mocks') =>
      if toEqual result out then runAsserts impl inst rest mocks'
      else (.error (.outMismatch result out), mocks')
  | .inert :: rest => runAsserts impl inst rest mocks

/-- One execution of a class-mode case: method call with throw/return
check, then its assertions. -/
def runExecution (impl : ClassImpl) (inst : Value) (e : ExecutionSpec)
    (mocks : MockEnv) : Except CaseErr Unit × MockEnv :=
  if e.throwsV.jsTruthy then
    match callNestedMethodSt impl inst e.method e.inArgs mocks with
    | (.error m, mocks') =>
      if toThrowMatches m e.throwsV then (.ok (), mocks')
      else (.error (.throwMismatch m e.throwsV), mocks')
    | (.ok _, mocks') => (.error (.expectedThrowButReturned e.throwsV), mocks')
  else
    match callNestedMethodSt impl inst e.method e.inArgs mocks with
    | (.error m, mocks') => (.error (.uncaught m), mocks')
    | (.ok result, mocks') =>
      match e.out with
      | .vUndefined => runAsserts impl inst e.asserts mocks'
      | expected =>
        if toEqual result expected then runAsserts impl inst e.asserts mocks'
        else (.error (.outMismatch result expected), mocks')

/-- The `try`-block body of a class-mode case: the executions in order,
stopping at the first failure. -/
def classCaseBody (impl : ClassImpl) (inst : Value)
    (executions : List ExecutionSpec) (mocks : MockEnv) :
    Except CaseErr Unit × MockEnv :=
  match executions with
  | [] => (.ok (), mocks)
  | e :: rest =>
    match runExecution impl inst e mocks with
    | (.error err, mocks') => (.error err, mocks')
    | (.ok _, mocks') => classCaseBody impl inst rest mocks'

/-- Shallow embedding of one registered test of `setupClassTests`: a
missing `ClassUnderTest` throws before the `try` (no cleanup); the fresh
instance is the `inst` object graph (construction is modelled as already
performed; instance-state mutation is abstracted into `impl`, which the
control-flow claims quantify over); the executions run inside `try`;
`validateMockCalls` runs after them, still inside `try`, when the mock map
is non-empty; the `finally` block always clears the mocks. -/
def runClassCase (classPresent : Bool) (inst : Value) (impl : ClassImpl)
    (executions : List ExecutionSpec) (mockFunctions : MockEnv)
    (suiteName : String) : RunTrace :=
  if classPresent then
    let (bodyRes, mocksAfter) := classCaseBody impl inst executions mockFunctions
    match bodyRes with
    | .error e => { result := .error e, validated := false, cleaned := true }
    | .ok _ =>
      if mockFunctions.length > 0 then
        match validateMockCalls mocksAfter with
        | .error (n, a, b) =>
          { result := .error (.mockCallCount n a b), validated := true, cleaned := true }
        | .ok _ => { result := .ok (), validated := true, cleaned := true }
      else { result := .ok (), validated := false, cleaned := true }
  else { result := .error (.classNotFound suiteName), validated := false, cleaned := false }

/-! ## Per-case mock injection (`injectFunctions`, `puty.js`) -/

/-- The `in` / `out` fields of one raw class-mode execution as injection
sees them (other fields are untouched by injection). -/
structure RawExec where
  inV : Value
  outV : Value

/-- The injection-relevant fields of one raw case. -/
structure RawCase where
  mocks : List (String × MockDef)
  inV : Value
  outV : Value
  executions : Option (List RawExec)

/-- The case after injection: resolved mocks, fresh mock functions, and the
substituted inputs/outputs. -/
structure InjCase where
  resolvedMocks : List (String × MockDef)
  mockFunctions : List (String × MockEntry)
  inV : Value
  outV : Value
  executions : Option (List RawExec)

/-- Substitution over the executions of a class-mode case (`if
(execution.in) ...`, `if (execution.out) ...`). -/
def injectExecs (mockFns : List (String × MockEntry)) :
    List RawExec → Except String (List RawExec)
  | [] => .ok []
  | e :: rest =>
    match (if e.inV.jsTruthy then processMockReferences e.inV mockFns else .ok e.inV) with
    | .error m => .error m
    | .ok inV =>
      match (if e.outV.jsTruthy then processMockReferences e.outV mockFns else .ok e.outV) with
      | .error m => .error m
      | .ok outV =>
        match injectExecs mockFns rest with
        | .error m => .error m
        | .ok rest2 => .ok ({ inV := inV, outV := outV } :: rest2)

/-- Shallow embedding of the per-case block of `injectFunctions`: resolve
the three-level mock hierarchy, create fresh mock functions, then
substitute `$mock:` references in the case's `in` / `out` and in each
execution's `in` / `out`; an undefined reference aborts injection. -/
def injectCase (configMocks suiteMocks : List (String × MockDef)) (c : RawCase) :
    Except String InjCase :=
  let resolved := resolveMocks c.mocks suiteMocks configMocks
  let mockFns := createMockFunctions resolved
  match (if c.inV.jsTruthy then processMockReferences c.inV mockFns else .ok c.inV) with
  | .error m => .error m
  | .ok inV =>
    match (if c.outV.jsTruthy then processMockReferences c.outV mockFns else .ok c.outV) with
    | .error m => .error m
    | .ok outV =>
      match (match c.executions with
        | none => Except.ok none
        | some es =>
          match injectExecs mockFns es with
          | .error m => .error m
          | .ok es2 => .ok (some es2)) with
      | .error m => .error m
      | .ok exes =>
        .ok { resolvedMocks := resolved, mockFunctions := mockFns,
              inV := inV, outV := outV, executions := exes }

/-- The function-mode pipeline for one case: injection (inside
`injectFunctions`, before any test executes), then the registered test.
An injection failure aborts the whole source setup; the unit under test is
never invoked. -/
def runFunctionCasePipeline (f : FnImpl) (configMocks suiteMocks : List (String × MockDef))
    (c : RawCase) (throwsV : Value) (caseName : String) :
    Except CaseErr Unit :=
  match injectCase configMocks suiteMocks c with
  | .error m => .error (.uncaught m)
  | .ok ic =>
    (runFunctionCase (some f) (spreadArgs (if ic.inV.jsTruthy then ic.inV else .vArr []))
      ic.outV throwsV ic.mockFunctions caseName).result

/-! ## General lemmas about the embedded primitives -/

theorem attach_all_eq {α : Type} (l : List α) (p : α → Bool) :
    (l.attach.all fun x => p x.1) = l.all p := by
  rw [Bool.eq_iff_iff]
  simp [List.all_eq_true]

theorem jsLookup_eq_lookupA (l : List (String × Value)) (k : String) :
    jsLookup l k = lookupA l k := by
  induction l with
  | nil => rfl
  | cons p rest ih =>
    obtain ⟨k', v⟩ := p
    by_cases h : k' == k <;> simp [jsLookup, lookupA, h, ih]

theorem mem_of_lookupA {β : Type} {l : List (String × β)} {k : String} {v : β}
    (h : lookupA l k = some v) : (k, v) ∈ l := by
  induction l with
  | nil => cases h
  | cons p rest ih =>
    obtain ⟨k', w⟩ := p
    by_cases hk : k' == k
    · simp only [lookupA, hk, if_true] at h
      cases h
      have : k' = k := by simpa using hk
      subst this
      exact List.mem_cons_self _ _
    · simp only [lookupA, hk, if_false] at h
      exact List.mem_cons_of_mem _ (ih h)

theorem lookupA_of_mem_nodup {β : Type} {l : List (String × β)} {k : String} {v : β}
    (hnd : (l.map Prod.fst).Nodup) (h : (k, v) ∈ l) : lookupA l k = some v := by
  induction l with
  | nil => cases h
  | cons p rest ih =>
    obtain ⟨k', w⟩ := p
    simp only [List.map_cons, List.nodup_cons] at hnd
    rcases List.mem_cons.mp h with h | h
    · cases h
      simp [lookupA]
    · have hne : k' ≠ k := by
        intro he
        subst he
        exact hnd.1 (List.mem_map_of_mem Prod.fst h)
      simp only [lookupA, show (k' == k) = false by simpa using hne, if_false]
      exact ih hnd.2 h

theorem contains_eq_mem {l : List String} {k : String} :
    l.contains k = true ↔ k ∈ l := by
  simp

/-! ## Unfolding lemmas for `deepEqual` -/

theorem deepEqual_identity (a b : Value) (h : strictEq a b = true) :
    deepEqual a b = true := by
  rw [deepEqual]
  simp [h]
  intro xs ys hxs hys
  subst hxs
  subst hys
  simp [strictEq] at h

theorem deepEqual_arr (xs ys : List Value) :
    deepEqual (.vArr xs) (.vArr ys) =
      (xs.length == ys.length && (xs.zip ys).all fun p => deepEqual p.1 p.2) := by
  rw [deepEqual]
  simp only [strictEq, isNullish, Bool.or_self, if_false]
  rw [← attach_all_eq ((xs.zip ys)) (fun p => deepEqual p.1 p.2)]
  rfl

theorem deepEqual_obj (fa fb : List (String × Value)) :
    deepEqual (.vObj fa) (.vObj fb) =
      (fa.length == fb.length && fa.all fun kv =>
        (fb.map Prod.fst).contains kv.1 &&
          match jsLookup fb kv.1 with
          | some vb => deepEqual kv.2 vb
          | none => false) := by
  rw [deepEqual]
  simp only [strictEq, isNullish, Bool.or_self, if_false, typeofObject, Bool.and_self, if_true]
  rw [← attach_all_eq fa (fun kv => (fb.map Prod.fst).contains kv.1 &&
    match jsLookup fb kv.1 with
    | some vb => deepEqual kv.2 vb
    | none => false)]
  · rfl
  · intro xs ys h1 h2
    cases h1

/-! ## Claim C4: mock hierarchy precedence -/

/-- A one-entry expected call used by the override scenario. -/
def loggerCallA : ExpectedCall :=
  { argsIn := .vArr [.vStr "msg1"], out := .vUndefined, throws := .vUndefined }

/-- Global mock definition of `logger` with one expected call. -/
def oneCallLogger : MockDef :=
  { calls := [loggerCallA] }

/-- Case-level mock definition of `logger` with two expected calls. -/
def twoCallLogger : MockDef :=
  { calls := [loggerCallA,
    { argsIn := .vArr [.vStr "msg2"], out := .vUndefined, throws := .vUndefined }] }

/-- C4: `resolveMocks` applies case > suite > global precedence as a
whole-entry override per name: the resolved binding of every name is the
case binding when present, else the suite binding, else the global binding
(never a field-wise merge); the wrapper built from a definition expects
exactly `calls.length` calls, so a global one-call `logger` overridden by a
case-level two-call `logger` yields a mock expecting exactly two calls. -/
theorem resolveMocks_whole_entry_precedence :
    (∀ (caseMocks suiteMocks globalMocks : List (String × MockDef)) (name : String),
      lookupA (resolveMocks caseMocks suiteMocks globalMocks) name =
        match lookupA caseMocks name with
        | some d => some d
        | none =>
          match lookupA suiteMocks name with
          | some d => some d
          | none => lookupA globalMocks name) ∧
    (∀ (name : String) (d : MockDef) (fid : Nat),
      (createMockFunction name d fid).expectedCalls = d.calls.length) ∧
    lookupA (resolveMocks [("logger", twoCallLogger)] [] [("logger", oneCallLogger)])
      "logger" = some twoCallLogger ∧
    (createMockFunction "logger" twoCallLogger 0).expectedCalls = 2 := by
  refine ⟨?_, ?_, ?_, ?_⟩
  · intro caseMocks suiteMocks globalMocks name
    unfold resolveMocks
    rw [lookupA_objAssign, lookupA_objAssign]
    cases lookupA caseMocks name <;> cases lookupA suiteMocks name <;> rfl
  · intro name d fid
    rfl
  · rfl
  · rfl

/-! ## Claim C9: deepEqual characterization -/

/-- C9 counterexample: under `deepEqual` the two sentinels are not equal to
each other — `null === undefined` is false and then `a == null` rejects the
pair — contradicting the claim that each is unequal to anything but the
other. -/
theorem deepEqual_sentinel_counterexample :
    deepEqual .vNull .vUndefined = false ∧ deepEqual .vUndefined .vNull = false := by
  constructor <;> (rw [deepEqual] <;> first
    | rfl
    | (intro xs ys h1 h2; cases h1; done)
    | (intro xs ys h1 h2; cases h2))

/-- C9 (amended): `deepEqual` is an equality check where identity
short-circuits to true; each null/undefined-like sentinel equals only
itself (null and undefined are mutually unequal, and unequal to everything
else); two arrays are equal iff they are element-wise equal positionally
(which forces equal lengths); and two non-array objects with duplicate-free
keys are equal iff their key sets coincide and the values bound to every
common key are recursively equal, regardless of key order. -/
theorem deepEqual_structural_equality :
    (∀ a b : Value, strictEq a b = true → deepEqual a b = true) ∧
    (deepEqual .vNull .vNull = true ∧ deepEqual .vUndefined .vUndefined = true ∧
      deepEqual .vNull .vUndefined = false ∧ deepEqual .vUndefined .vNull = false ∧
      (∀ v : Value, v.isNullish = false →
        deepEqual .vNull v = false ∧ deepEqual v .vNull = false ∧
        deepEqual .vUndefined v = false ∧ deepEqual v .vUndefined = false)) ∧
    (∀ xs ys : List Value,
      deepEqual (.vArr xs) (.vArr ys) = true ↔
        List.Forall₂ (fun x y => deepEqual x y = true) xs ys) ∧
    (∀ fa fb : List (String × Value),
      (fa.map Prod.fst).Nodup → (fb.map Prod.fst).Nodup →
      (deepEqual (.vObj fa) (.vObj fb) = true ↔
        ((∀ k, k ∈ fa.map Prod.fst ↔ k ∈ fb.map Prod.fst) ∧
         (∀ k va vb, jsLookup fa k = some va → jsLookup fb k = some vb →
            deepEqual va vb = true)))) := by
  refine ⟨deepEqual_identity, ⟨?_, ?_, ?_, ?_, ?_⟩, ?_, ?_⟩
  · rw [deepEqual] <;> first
      | rfl
      | (intro xs ys h1 h2; cases h1; done)
      | (intro xs ys h1 h2; cases h2)
  · rw [deepEqual] <;> first
      | rfl
      | (intro xs ys h1 h2; cases h1; done)
      | (intro xs ys h1 h2; cases h2)
  · rw [deepEqual] <;> first
      | rfl
      | (intro xs ys h1 h2; cases h1; done)
      | (intro xs ys h1 h2; cases h2)
  · rw [deepEqual] <;> first
      | rfl
      | (intro xs ys h1 h2; cases h1; done)
      | (intro xs ys h1 h2; cases h2)
  · intro v hv
    cases v with
    | vNull => simp [isNullish] at hv
    | vUndefined => simp [isNullish] at hv
    | vBool b =>
      refine ⟨?_, ?_, ?_, ?_⟩ <;> (rw [deepEqual] <;> first
        | rfl
        | (intro xs ys h1 h2; cases h1; done)
        | (intro xs ys h1 h2; cases h2))
    | vInt n =>
      refine ⟨?_, ?_, ?_, ?_⟩ <;> (rw [deepEqual] <;> first
        | rfl
        | (intro xs ys h1 h2; cases h1; done)
        | (intro xs ys h1 h2; cases h2))
    | vStr s =>
      refine ⟨?_, ?_, ?_, ?_⟩ <;> (rw [deepEqual] <;> first
        | rfl
        | (intro xs ys h1 h2; cases h1; done)
        | (intro xs ys h1 h2; cases h2))
    | vArr xs =>
      refine ⟨?_, ?_, ?_, ?_⟩ <;> (rw [deepEqual] <;> first
        | rfl
        | (intro xs ys h1 h2; cases h1; done)
        | (intro xs ys h1 h2; cases h2))
    | vObj fields =>
      refine ⟨?_, ?_, ?_, ?_⟩ <;> (rw [deepEqual] <;> first
        | rfl
        | (intro xs ys h1 h2; cases h1; done)
        | (intro xs ys h1 h2; cases h2))
    | vFunc i =>
      refine ⟨?_, ?_, ?_, ?_⟩ <;> (rw [deepEqual] <;> first
        | rfl
        | (intro xs ys h1 h2; cases h1; done)
        | (intro xs ys h1 h2; cases h2))
  · intro xs ys
    rw [deepEqual_arr, List.forall₂_iff_zip]
    constructor
    · intro h
      have h' := Bool.and_eq_true_iff.mp h
      refine ⟨by simpa using h'.1, ?_⟩
      intro a b hm
      have := List.all_eq_true.mp h'.2 (a, b) hm
      simpa using this
    · rintro ⟨hlen, hzip⟩
      apply Bool.and_eq_true_iff.mpr
      refine ⟨by simpa using hlen, ?_⟩
      apply List.all_eq_true.mpr
      rintro ⟨a, b⟩ hm
      simpa using hzip hm
  · intro fa fb hnda hndb
    rw [deepEqual_obj]
    constructor
    · intro h
      have h' := Bool.and_eq_true_iff.mp h
      have hlen : fa.length = fb.length := by simpa using h'.1
      have hall := List.all_eq_true.mp h'.2
      have hsub : ∀ k, k ∈ fa.map Prod.fst → k ∈ fb.map Prod.fst := by
        intro k hk
        obtain ⟨⟨k', va⟩, hmem, hk'⟩ := List.mem_map.mp hk
        cases hk'
        have hb := Bool.and_eq_true_iff.mp (hall _ hmem)
        exact contains_eq_mem.mp hb.1
      have hkeys : ∀ k, k ∈ fa.map Prod.fst ↔ k ∈ fb.map Prod.fst := by
        have hcard : (fa.map Prod.fst).toFinset = (fb.map Prod.fst).toFinset := by
          apply Finset.eq_of_subset_of_card_le
          · intro k hk
            exact List.mem_toFinset.mpr (hsub k (List.mem_toFinset.mp hk))
          · rw [List.toFinset_card_of_nodup hnda, List.toFinset_card_of_nodup hndb]
            simp [hlen]
        intro k
        rw [← List.mem_toFinset, ← List.mem_toFinset (l := fb.map Prod.fst), hcard]
      refine ⟨hkeys, ?_⟩
      intro k va vb hva hvb
      have hmem : (k, va) ∈ fa := mem_of_lookupA (jsLookup_eq_lookupA fa k ▸ hva)
      have hb := Bool.and_eq_true_iff.mp (hall _ hmem)
      have h2 := hb.2
      rw [hvb] at h2
      exact h2
    · rintro ⟨hkeys, hvals⟩
      apply Bool.and_eq_true_iff.mpr
      constructor
      · have : (fa.map Prod.fst).toFinset = (fb.map Prod.fst).toFinset := by
          ext k
          simp only [List.mem_toFinset]
          exact hkeys k
        have h1 := List.toFinset_card_of_nodup hnda
        have h2 := List.toFinset_card_of_nodup hndb
        have : fa.length = fb.length := by
          have := congrArg Finset.card this
          rw [h1, h2] at this
          simpa using this
        simpa using this
      · apply List.all_eq_true.mpr
        rintro ⟨k, va⟩ hmem
        apply Bool.and_eq_true_iff.mpr
        have hka : k ∈ fa.map Prod.fst := List.mem_map_of_mem Prod.fst hmem
        have hkb : k ∈ fb.map Prod.fst := (hkeys k).mp hka
        refine ⟨contains_eq_mem.mpr hkb, ?_⟩
        have hva : jsLookup fa k = some va := by
          rw [jsLookup_eq_lookupA]
          exact lookupA_of_mem_nodup hnda hmem
        have hvb : ∃ vb, jsLookup fb k = some vb := by
          rw [jsLookup_eq_lookupA]
          have := lookupA_isSome_iff_keyMem fb k
          rw [show ((fb.map Prod.fst).contains k) = true from contains_eq_mem.mpr hkb] at this
          exact Option.isSome_iff_exists.mp this
        obtain ⟨vb, hvb⟩ := hvb
        rw [hvb]
        simpa using hvals k va vb hva hvb

/-- C9 witness: the amended characterization applied at concrete inputs —
identity short-circuit on equal strings, and key-order-independent object
equality via the object characterization with its duplicate-free-key
hypotheses discharged. -/
theorem deepEqual_structural_equality_witness :
    deepEqual (.vStr "id") (.vStr "id") = true ∧
    deepEqual (.vObj [("a", .vInt 1), ("b", .vInt 2)])
      (.vObj [("b", .vInt 2), ("a", .vInt 1)]) = true := by
  constructor
  · exact deepEqual_structural_equality.1 _ _ (by rfl)
  · apply (deepEqual_structural_equality.2.2.2
      [("a", .vInt 1), ("b", .vInt 2)] [("b", .vInt 2), ("a", .vInt 1)]
      (by simp) (by simp)).mpr
    constructor
    · intro k
      constructor <;> (intro h; simp only [List.map_cons, List.map_nil, List.mem_cons,
        List.mem_singleton, List.not_mem_nil, or_false] at h ⊢; tauto)
    · intro k va vb hva hvb
      by_cases ha : ("a" : String) = k
      · subst ha
        simp only [jsLookup, show (("a" : String) == "a") = true by decide] at hva
        simp only [jsLookup, show (("b" : String) == "a") = false by decide,
          show (("a" : String) == "a") = true by decide, if_false, if_true] at hvb
        cases hva
        cases hvb
        exact deepEqual_identity _ _ (by rfl)
      · by_cases hb : ("b" : String) = k
        · subst hb
          simp only [jsLookup, show (("a" : String) == "b") = false by decide,
            show (("b" : String) == "b") = true by decide, if_false, if_true] at hva hvb
          cases hva
          cases hvb
          exact deepEqual_identity _ _ (by rfl)
        · exfalso
          simp only [jsLookup,
            show (("a" : String) == k) = false by simpa using ha,
            show (("b" : String) == k) = false by simpa using hb,
            if_false] at hva
          cases hva

/-! ## Claim C5: mock call protocol -/

/-- True for outcomes that are not validation failures: a successful return
or the designed raise of a declared `throws`. -/
def isOkOrDesigned : MockInvokeResult → Bool
  | .ret _ => true
  | .designedThrow _ => true
  | .callCountErr _ _ => false
  | .argMismatchErr _ _ => false

theorem mockInvokeSeq_cons (calls : List ExpectedCall) (cursor : Nat)
    (args : Value) (rest : List Value) :
    mockInvokeSeq calls cursor (args :: rest) =
      ((mockInvoke calls cursor args).1 ::
          (mockInvokeSeq calls (mockInvoke calls cursor args).2 rest).1,
        (mockInvokeSeq calls (mockInvoke calls cursor args).2 rest).2) := by
  rw [mockInvokeSeq]

theorem mockInvokeSeq_exact (calls : List ExpectedCall) :
    ∀ (argss : List Value) (cursor : Nat),
      List.Forall₂ (fun args ec => deepEqual args ec.argsIn = true) argss
        (calls.drop cursor) →
      (mockInvokeSeq calls cursor argss).2 = cursor + argss.length ∧
      ∀ r ∈ (mockInvokeSeq calls cursor argss).1, isOkOrDesigned r = true := by
  intro argss
  induction argss with
  | nil =>
    intro cursor _
    exact ⟨rfl, by intro r hr; cases hr⟩
  | cons args rest ih =>
    intro cursor h
    have hne : calls.drop cursor ≠ [] := by
      intro hnil
      rw [hnil] at h
      cases h
    have hlt : cursor < calls.length := List.length_lt_of_drop_ne_nil hne
    rw [List.drop_eq_getElem_cons hlt] at h
    cases h with
    | cons hR hrest =>
      obtain ⟨ihEq, ihAll⟩ := ih (cursor + 1) (by simpa using hrest)
      have hfst : (mockInvoke calls cursor args).2 = cursor + 1 := by
        unfold mockInvoke
        rw [dif_pos hlt]
        simp only [List.get_eq_getElem]
        rw [if_pos hR]
        by_cases ht : (calls[cursor] : ExpectedCall).throws.jsTruthy
        · rw [if_pos ht]
        · rw [if_neg ht]
      have hok : isOkOrDesigned (mockInvoke calls cursor args).1 = true := by
        unfold mockInvoke
        rw [dif_pos hlt]
        simp only [List.get_eq_getElem]
        rw [if_pos hR]
        by_cases ht : (calls[cursor] : ExpectedCall).throws.jsTruthy
        · rw [if_pos ht]
          rfl
        · rw [if_neg ht]
          rfl
      constructor
      · have hsnd : (mockInvokeSeq calls cursor (args :: rest)).2 =
            (mockInvokeSeq calls (mockInvoke calls cursor args).2 rest).2 := by
          rw [mockInvokeSeq_cons]
        rw [hsnd, hfst, ihEq]
        simp only [List.length_cons]
        omega
      · intro r hr
        have hmem : r ∈ (mockInvoke calls cursor args).1 ::
            (mockInvokeSeq calls (mockInvoke calls cursor args).2 rest).1 := by
          rw [mockInvokeSeq_cons] at hr
          exact hr
        rcases List.mem_cons.mp hmem with hr' | hr'
        · subst hr'
          exact hok
        · rw [hfst] at hr'
          exact ihAll r hr'

/-- C5: invoking a mock with a sequence matching `calls` exactly (same
count, deep-equal arguments in order) produces no validation failure (only
returns and designed throws), ends with the cursor at `calls.length`, and
finalize (`validate`) passes; one extra call past `calls.length` yields the
call-count error citing the actual (`calls.length + 1`) and expected
counts; an argument mismatch at the cursor yields the mismatch error
rendering the expected and actual argument lists without advancing; and a
cursor short of `calls.length` makes `validate` fail with both counts. -/
theorem mock_call_protocol (calls : List ExpectedCall) (name : String) (fid : Nat) :
    (∀ argss : List Value,
      List.Forall₂ (fun args ec => deepEqual args ec.argsIn = true) argss calls →
      (mockInvokeSeq calls 0 argss).2 = calls.length ∧
      (∀ r ∈ (mockInvokeSeq calls 0 argss).1, isOkOrDesigned r = true) ∧
      mockValidate ⟨name, calls, fid, (mockInvokeSeq calls 0 argss).2⟩ = .ok ()) ∧
    (∀ args : Value,
      mockInvoke calls calls.length args =
        (.callCountErr (calls.length + 1) calls.length, calls.length)) ∧
    (∀ (cursor : Nat) (args : Value) (h : cursor < calls.length),
      deepEqual args (calls.get ⟨cursor, h⟩).argsIn = false →
      mockInvoke calls cursor args =
        (.argMismatchErr (calls.get ⟨cursor, h⟩).argsIn args, cursor)) ∧
    (∀ cursor : Nat, cursor < calls.length →
      mockValidate ⟨name, calls, fid, cursor⟩ = .error (name, cursor, calls.length)) := by
  refine ⟨?_, ?_, ?_, ?_⟩
  · intro argss h
    have hlen : argss.length = calls.length := h.length_eq
    obtain ⟨hEq, hAll⟩ := mockInvokeSeq_exact calls argss 0 (by simpa using h)
    rw [hEq, Nat.zero_add, hlen]
    refine ⟨rfl, hAll, ?_⟩
    simp [mockValidate]
  · intro args
    unfold mockInvoke
    rw [dif_neg (by omega)]
  · intro cursor args h hne
    unfold mockInvoke
    rw [dif_pos h]
    simp only [List.get_eq_getElem] at hne ⊢
    rw [if_neg (by simp [hne])]
  · intro cursor h
    simp [mockValidate, Nat.ne_of_lt h]

/-- A concrete expected call for the C5 witness. -/
def witnessCall : ExpectedCall :=
  { argsIn := .vArr [.vInt 1], out := .vInt 7, throws := .vUndefined }

/-- C5 witness: the protocol applied to a one-call mock — the exact
sequence validates, the extra call yields the count error, and the missed
call fails finalize. -/
theorem mock_call_protocol_witness :
    (mockInvokeSeq [witnessCall] 0 [.vArr [.vInt 1]]).2 = 1 ∧
    mockValidate ⟨"m", [witnessCall], 0, (mockInvokeSeq [witnessCall] 0 [.vArr [.vInt 1]]).2⟩
      = .ok () ∧
    mockInvoke [witnessCall] 1 (.vArr []) = (.callCountErr 2 1, 1) ∧
    mockValidate ⟨"m", [witnessCall], 0, 0⟩ = .error ("m", 0, 1) := by
  have hde : deepEqual (.vArr [.vInt 1]) (.vArr [.vInt 1]) = true := by
    rw [deepEqual_arr]
    have h1 : deepEqual (.vInt 1) (.vInt 1) = true := deepEqual_identity _ _ (by rfl)
    simp [h1]
  have h := mock_call_protocol [witnessCall] "m" 0
  have hmatch : List.Forall₂ (fun args ec => deepEqual args ec.argsIn = true)
      [Value.vArr [.vInt 1]] [witnessCall] := by
    refine List.Forall₂.cons ?_ List.Forall₂.nil
    exact hde
  have hseq := h.1 [Value.vArr [.vInt 1]] hmatch
  refine ⟨?_, hseq.2.2, ?_, ?_⟩
  · simpa using hseq.1
  · simpa using h.2.1 (.vArr [])
  · simpa using h.2.2.2 0 (by decide)

/-! ## Normal forms of the normalizer steps -/

/-- The state transformer of `stepDocP` on a non-nullish document, written
over the total field reader `docField` (used to reason by cases on the
recognized document shapes). -/
def stepDocPTotal (st : NormStateP) (doc : Value) : NormStateP :=
  if (docField doc "file").jsTruthy then
    { st with
      file := docField doc "file",
      group := if (docField doc "group").jsTruthy then docField doc "group"
        else docField doc "name",
      suiteNames := if (docField doc "suites").jsTruthy then some (docField doc "suites")
        else st.suiteNames }
  else if (docField doc "suite").jsTruthy then
    { st with
      suites := st.suites ++ (match st.currentSuite with
        | some cur => [renderSuiteP cur]
        | none => []),
      currentSuite := some
        { name := docField doc "suite",
          exportName := if (docField doc "exportName").jsTruthy then docField doc "exportName"
            else docField doc "suite",
          isClass := strictEq (docField doc "mode") (.vStr "class"),
          ctorArgs := if (docField doc "constructorArgs").jsTruthy
            then docField doc "constructorArgs" else .vArr [],
          cases := [] } }
  else
    match st.currentSuite with
    | some cur =>
      if (docField doc "case").jsTruthy then
        if cur.isClass then
          { st with currentSuite := some { cur with cases := cur.cases ++
            [Value.vObj [("name", docField doc "case"),
              ("executions", if (docField doc "executions").jsTruthy
                then docField doc "executions" else .vArr [])]] } }
        else
          { st with currentSuite := some { cur with cases := cur.cases ++
            [Value.vObj ([("name", docField doc "case"),
              ("in", if (docField doc "in").jsTruthy then docField doc "in" else .vArr []),
              ("out", docField doc "out")] ++
              (if (docField doc "throws").jsTruthy
                then [("throws", docField doc "throws")] else []))] } }
      else st
    | none => st

/-- The state transformer of `stepDocY` on a non-nullish document. -/
def stepDocYTotal (st : NormStateY) (doc : Value) : NormStateY :=
  if (docField doc "file").jsTruthy then
    { st with
      file := docField doc "file",
      group := if (docField doc "group").jsTruthy then docField doc "group"
        else docField doc "name",
      mocks := if (docField doc "mocks").jsTruthy then docField doc "mocks" else .vObj [],
      suiteNames := if (docField doc "suites").jsTruthy then some (docField doc "suites")
        else st.suiteNames }
  else if (docField doc "suite").jsTruthy then
    { st with
      suites := st.suites ++ (match st.currentSuite with
        | some cur => [renderSuiteY cur]
        | none => []),
      currentSuite := some
        { name := docField doc "suite",
          exportName := if (docField doc "exportName").jsTruthy then docField doc "exportName"
            else docField doc "suite",
          mocks := if (docField doc "mocks").jsTruthy then docField doc "mocks" else .vObj [],
          isClass := strictEq (docField doc "mode") (.vStr "class"),
          ctorArgs := if (docField doc "constructorArgs").jsTruthy
            then docField doc "constructorArgs" else .vArr [],
          cases := [] } }
  else
    match st.currentSuite with
    | some cur =>
      if (docField doc "case").jsTruthy then
        if cur.isClass then
          { st with currentSuite := some { cur with cases := cur.cases ++
            [Value.vObj [("name", docField doc "case"),
              ("mocks", if (docField doc "mocks").jsTruthy then docField doc "mocks"
                else Value.vObj []),
              ("resolvedMocks", .vNull),
              ("executions", if (docField doc "executions").jsTruthy
                then docField doc "executions" else .vArr [])]] } }
        else
          { st with currentSuite := some { cur with cases := cur.cases ++
            [Value.vObj ([("name", docField doc "case"),
              ("mocks", if (docField doc "mocks").jsTruthy then docField doc "mocks"
                else Value.vObj []),
              ("resolvedMocks", .vNull),
              ("in", if (docField doc "in").jsTruthy then docField doc "in" else .vArr []),
              ("out", docField doc "out")] ++
              (if (docField doc "throws").jsTruthy
                then [("throws", docField doc "throws")] else []))] } }
      else st
    | none => st

theorem exceptBindOk {α β : Type} (a : α) (f : α → Except String β) :
    (Except.ok a >>= f) = f a := rfl

theorem exceptPureOk {β : Type} (b : β) : (pure b : Except String β) = Except.ok b := rfl

theorem stepDocP_eq_total (st : NormStateP) (d : Value) (hd : d.isNullish = false) :
    stepDocP st d = .ok (stepDocPTotal st d) := by
  cases d with
  | vNull => simp [isNullish] at hd
  | vUndefined => simp [isNullish] at hd
  | vBool b =>
    simp only [stepDocP, stepDocPTotal, jsGetProp, docField, exceptBindOk, exceptPureOk]
    cases hcur : st.currentSuite with
    | none => split_ifs <;> rfl
    | some cur => by_cases hc : cur.isClass <;> simp only [hc] <;> split_ifs <;> rfl
  | vInt n =>
    simp only [stepDocP, stepDocPTotal, jsGetProp, docField, exceptBindOk, exceptPureOk]
    cases hcur : st.currentSuite with
    | none => split_ifs <;> rfl
    | some cur => by_cases hc : cur.isClass <;> simp only [hc] <;> split_ifs <;> rfl
  | vStr s =>
    simp only [stepDocP, stepDocPTotal, jsGetProp, docField, exceptBindOk, exceptPureOk]
    cases hcur : st.currentSuite with
    | none => split_ifs <;> rfl
    | some cur => by_cases hc : cur.isClass <;> simp only [hc] <;> split_ifs <;> rfl
  | vArr xs =>
    simp only [stepDocP, stepDocPTotal, jsGetProp, docField, exceptBindOk, exceptPureOk]
    cases hcur : st.currentSuite with
    | none => split_ifs <;> rfl
    | some cur => by_cases hc : cur.isClass <;> simp only [hc] <;> split_ifs <;> rfl
  | vObj fields =>
    simp only [stepDocP, stepDocPTotal, jsGetProp, docField, exceptBindOk, exceptPureOk]
    cases hcur : st.currentSuite with
    | none => split_ifs <;> rfl
    | some cur => by_cases hc : cur.isClass <;> simp only [hc] <;> split_ifs <;> rfl
  | vFunc i =>
    simp only [stepDocP, stepDocPTotal, jsGetProp, docField, exceptBindOk, exceptPureOk]
    cases hcur : st.currentSuite with
    | none => split_ifs <;> rfl
    | some cur => by_cases hc : cur.isClass <;> simp only [hc] <;> split_ifs <;> rfl

theorem stepDocY_eq_total (st : NormStateY) (d : Value) (hd : d.isNullish = false) :
    stepDocY st d = .ok (stepDocYTotal st d) := by
  cases d with
  | vNull => simp [isNullish] at hd
  | vUndefined => simp [isNullish] at hd
  | vBool b =>
    simp only [stepDocY, stepDocYTotal, jsGetProp, docField, exceptBindOk, exceptPureOk]
    cases hcur : st.currentSuite with
    | none => split_ifs <;> rfl
    | some cur => by_cases hc : cur.isClass <;> simp only [hc] <;> split_ifs <;> rfl
  | vInt n =>
    simp only [stepDocY, stepDocYTotal, jsGetProp, docField, exceptBindOk, exceptPureOk]
    cases hcur : st.currentSuite with
    | none => split_ifs <;> rfl
    | some cur => by_cases hc : cur.isClass <;> simp only [hc] <;> split_ifs <;> rfl
  | vStr s =>
    simp only [stepDocY, stepDocYTotal, jsGetProp, docField, exceptBindOk, exceptPureOk]
    cases hcur : st.currentSuite with
    | none => split_ifs <;> rfl
    | some cur => by_cases hc : cur.isClass <;> simp only [hc] <;> split_ifs <;> rfl
  | vArr xs =>
    simp only [stepDocY, stepDocYTotal, jsGetProp, docField, exceptBindOk, exceptPureOk]
    cases hcur : st.currentSuite with
    | none => split_ifs <;> rfl
    | some cur => by_cases hc : cur.isClass <;> simp only [hc] <;> split_ifs <;> rfl
  | vObj fields =>
    simp only [stepDocY, stepDocYTotal, jsGetProp, docField, exceptBindOk, exceptPureOk]
    cases hcur : st.currentSuite with
    | none => split_ifs <;> rfl
    | some cur => by_cases hc : cur.isClass <;> simp only [hc] <;> split_ifs <;> rfl
  | vFunc i =>
    simp only [stepDocY, stepDocYTotal, jsGetProp, docField, exceptBindOk, exceptPureOk]
    cases hcur : st.currentSuite with
    | none => split_ifs <;> rfl
    | some cur => by_cases hc : cur.isClass <;> simp only [hc] <;> split_ifs <;> rfl

theorem stepDocP_nullish (st : NormStateP) (stY : NormStateY) (d : Value)
    (hd : d.isNullish = true) :
    ∃ m, stepDocP st d = .error m ∧ stepDocY stY d = .error m := by
  cases d with
  | vNull => exact ⟨_, rfl, rfl⟩
  | vUndefined => exact ⟨_, rfl, rfl⟩
  | vBool b => simp [isNullish] at hd
  | vInt n => simp [isNullish] at hd
  | vStr s => simp [isNullish] at hd
  | vArr xs => simp [isNullish] at hd
  | vObj fields => simp [isNullish] at hd
  | vFunc i => simp [isNullish] at hd

/-! ## Claim C8: unrecognized documents -/

/-- A document matching one of the three recognized shapes: truthy `file`
(header), truthy `suite`, or truthy `case` key. -/
def recognizedDoc (d : Value) : Bool :=
  (docField d "file").jsTruthy || (docField d "suite").jsTruthy ||
    (docField d "case").jsTruthy

theorem stepDocP_ignored (st : NormStateP) (d : Value) (hd : d.isNullish = false)
    (hr : recognizedDoc d = false) : stepDocP st d = .ok st := by
  rw [stepDocP_eq_total st d hd]
  have hr' := hr
  simp only [recognizedDoc, Bool.or_eq_false_iff] at hr'
  obtain ⟨⟨h1, h2⟩, h3⟩ := hr'
  unfold stepDocPTotal
  rw [if_neg (by simp [h1]), if_neg (by simp [h2])]
  cases st.currentSuite with
  | none => rfl
  | some cur => simp [h3]

theorem processDocsFold_cons (st : NormStateP) (d : Value) (rest : List Value) :
    processDocsFold st (d :: rest) =
      match stepDocP st d with
      | .error m => .error m
      | .ok st2 => processDocsFold st2 rest := rfl

theorem processDocsFold_filter (docs : List Value) :
    ∀ st : NormStateP, (∀ d ∈ docs, d.isNullish = false) →
    processDocsFold st docs = processDocsFold st (docs.filter recognizedDoc) := by
  induction docs with
  | nil => intro st _; rfl
  | cons d rest ih =>
    intro st h
    have hd : d.isNullish = false := h d (List.mem_cons_self _ _)
    have hrest : ∀ x ∈ rest, x.isNullish = false := fun x hx => h x (List.mem_cons_of_mem _ hx)
    rw [List.filter_cons]
    by_cases hr : recognizedDoc d = true
    · rw [if_pos (by simp [hr])]
      rw [processDocsFold_cons, processDocsFold_cons]
      cases hstep : stepDocP st d with
      | error m => rfl
      | ok st2 => exact ih st2 hrest
    · rw [if_neg (by simpa using hr)]
      rw [processDocsFold_cons, stepDocP_ignored st d hd (by simpa using hr)]
      exact ih st hrest

/-- C8 counterexample: a `null` document — the parse of a comment-only
document — is not ignored by the normalizer; `doc.file` throws a TypeError,
unlike the empty stream, which yields the empty config. -/
theorem null_document_not_ignored :
    processDocumentsV [.vNull] =
      .error ("TypeError: Cannot read properties of null (reading file)") ∧
    processDocumentsV [] =
      .ok (.vObj [("file", .vNull), ("group", .vNull), ("suites", .vArr [])]) := by
  constructor <;> rfl

/-- C8 (amended): every non-nullish document matching none of the three
recognized shapes is ignored by `processDocuments` without error — the fold
state is unchanged — and the resulting TestConfig equals the one obtained
with those documents absent; nullish documents (the parse of comment-only
documents) are excluded, since property access on them throws a TypeError. -/
theorem unrecognized_documents_ignored :
    (∀ (st : NormStateP) (d : Value), d.isNullish = false → recognizedDoc d = false →
      stepDocP st d = .ok st) ∧
    (∀ docs : List Value, (∀ d ∈ docs, d.isNullish = false) →
      processDocumentsV docs = processDocumentsV (docs.filter recognizedDoc)) := by
  refine ⟨stepDocP_ignored, ?_⟩
  intro docs h
  unfold processDocumentsV
  rw [processDocsFold_filter docs initStateP h]

/-- C8 witness: a stream with a header document and three unrecognized
non-null documents (a number, a plain string, an empty array) normalizes to
the same config as its recognized-only filtering. -/
theorem unrecognized_documents_ignored_witness :
    processDocumentsV [.vObj [("file", .vStr "./m.js")], .vInt 3, .vStr "note", .vArr []] =
      processDocumentsV
        (([Value.vObj [("file", .vStr "./m.js")], .vInt 3, .vStr "note",
          .vArr []]).filter recognizedDoc) := by
  exact unrecognized_documents_ignored.2 _ (by decide)

/-! ## Claim C6: mock reference substitution -/

theorem processMockList_forall {mf : List (String × MockEntry)} :
    ∀ {elems out : List Value}, processMockList elems mf = .ok out →
    List.Forall₂ (fun e e2 => processMockReferences e mf = .ok e2) elems out := by
  intro elems
  induction elems with
  | nil =>
    intro out h
    cases h
    exact .nil
  | cons e rest ih =>
    intro out h
    rw [processMockList] at h
    cases he : processMockReferences e mf with
    | error m => rw [he] at h; cases h
    | ok e2 =>
      rw [he] at h
      cases hr : processMockList rest mf with
      | error m => rw [hr] at h; cases h
      | ok rest2 =>
        rw [hr] at h
        cases h
        exact .cons he (ih hr)

theorem processMockFields_forall {mf : List (String × MockEntry)} :
    ∀ {fields out : List (String × Value)}, processMockFields fields mf = .ok out →
    List.Forall₂ (fun kv kv2 => kv2.1 = kv.1 ∧
      processMockReferences kv.2 mf = .ok kv2.2) fields out := by
  intro fields
  induction fields with
  | nil =>
    intro out h
    cases h
    exact .nil
  | cons kv rest ih =>
    intro out h
    obtain ⟨k, v⟩ := kv
    rw [processMockFields] at h
    cases he : processMockReferences v mf with
    | error m => rw [he] at h; cases h
    | ok v2 =>
      rw [he] at h
      cases hr : processMockFields rest mf with
      | error m => rw [hr] at h; cases h
      | ok rest2 =>
        rw [hr] at h
        cases h
        exact .cons ⟨rfl, he⟩ (ih hr)

/-- C6: `processMockReferences` replaces every string bearing the
`$mock:<name>` sentinel with the wrapped mock function value when `name`
is bound (and fails with the undefined-mock-reference error when it is
not); arrays and objects are walked element/field-wise preserving shape
(same length, same field names in order, each member processed); all other
scalars pass through unchanged; and an injection failure (`injectCase`)
aborts the pipeline before the unit under test influences anything — the
pipeline result is the injection error, independent of the function under
test. -/
theorem mock_reference_substitution :
    (∀ (s : String) (mf : List (String × MockEntry)), startsWithMock s = true →
      (∀ w, lookupA mf (dropMock s) = some w →
        processMockReferences (.vStr s) mf = .ok (.vFunc w.funcId)) ∧
      (lookupA mf (dropMock s) = none →
        processMockReferences (.vStr s) mf =
          .error ("Mock " ++ dropMock s ++ " is referenced but not defined"))) ∧
    (∀ (elems : List Value) (mf : List (String × MockEntry)) (out : Value),
      processMockReferences (.vArr elems) mf = .ok out →
      ∃ elems2, out = .vArr elems2 ∧
        List.Forall₂ (fun e e2 => processMockReferences e mf = .ok e2) elems elems2) ∧
    (∀ (fields : List (String × Value)) (mf : List (String × MockEntry)) (out : Value),
      processMockReferences (.vObj fields) mf = .ok out →
      ∃ fields2, out = .vObj fields2 ∧
        List.Forall₂ (fun kv kv2 => kv2.1 = kv.1 ∧
          processMockReferences kv.2 mf = .ok kv2.2) fields fields2) ∧
    (∀ mf : List (String × MockEntry),
      processMockReferences .vNull mf = .ok .vNull ∧
      processMockReferences .vUndefined mf = .ok .vUndefined ∧
      (∀ b, processMockReferences (.vBool b) mf = .ok (.vBool b)) ∧
      (∀ n, processMockReferences (.vInt n) mf = .ok (.vInt n)) ∧
      (∀ i, processMockReferences (.vFunc i) mf = .ok (.vFunc i)) ∧
      (∀ s, startsWithMock s = false →
        processMockReferences (.vStr s) mf = .ok (.vStr s))) ∧
    (∀ (f g : FnImpl) (configMocks suiteMocks : List (String × MockDef)) (c : RawCase)
      (throwsV : Value) (nm : String) (m : String),
      injectCase configMocks suiteMocks c = .error m →
      runFunctionCasePipeline f configMocks suiteMocks c throwsV nm = .error (.uncaught m) ∧
      runFunctionCasePipeline f configMocks suiteMocks c throwsV nm =
        runFunctionCasePipeline g configMocks suiteMocks c throwsV nm) := by
  refine ⟨?_, ?_, ?_, ?_, ?_⟩
  · intro s mf hs
    constructor
    · intro w hw
      rw [processMockReferences, if_pos hs, hw]
    · intro hw
      rw [processMockReferences, if_pos hs, hw]
  · intro elems mf out h
    rw [processMockReferences] at h
    cases hl : processMockList elems mf with
    | error m => rw [hl] at h; cases h
    | ok elems2 =>
      rw [hl] at h
      cases h
      exact ⟨elems2, rfl, processMockList_forall hl⟩
  · intro fields mf out h
    rw [processMockReferences] at h
    cases hl : processMockFields fields mf with
    | error m => rw [hl] at h; cases h
    | ok fields2 =>
      rw [hl] at h
      cases h
      exact ⟨fields2, rfl, processMockFields_forall hl⟩
  · intro mf
    refine ⟨rfl, rfl, fun b => rfl, fun n => rfl, fun i => rfl, ?_⟩
    intro s hs
    rw [processMockReferences, if_neg (by simp [hs])]
  · intro f g configMocks suiteMocks c throwsV nm m h
    unfold runFunctionCasePipeline
    rw [h]
    exact ⟨rfl, rfl⟩

/-- A raw case whose input array holds an unbound mock reference. -/
def danglingRefCase : RawCase :=
  { mocks := [], inV := .vArr [.vStr "$mock:db"], outV := .vUndefined,
    executions := none }

/-- C6 witness: the sentinel `$mock:db` resolves to the bound wrapper's
function value; with an empty map the same sentinel is an undefined
reference, and injecting a case whose input holds it fails the whole
pipeline with that error for any function under test. -/
theorem mock_reference_substitution_witness :
    processMockReferences (.vStr "$mock:db")
      [("db", { mockName := "db", calls := [], funcId := 4, cursor := 0 })] =
      .ok (.vFunc 4) ∧
    processMockReferences (.vStr "$mock:db") [] =
      .error ("Mock db is referenced but not defined") ∧
    processMockReferences (.vInt 9) [] = .ok (.vInt 9) ∧
    runFunctionCasePipeline (fun _ m => (.ok .vUndefined, m)) [] []
      danglingRefCase .vUndefined "w" =
      .error (.uncaught ("Mock db is referenced but not defined")) := by
  have h := mock_reference_substitution
  refine ⟨?_, ?_, ?_, ?_⟩
  · exact (h.1 "$mock:db" _ (by decide)).1
      { mockName := "db", calls := [], funcId := 4, cursor := 0 } rfl
  · exact (h.1 "$mock:db" [] (by decide)).2 rfl
  · exact (h.2.2.2.1 []).2.2.2.1 9
  · exact (h.2.2.2.2 (fun _ m => (.ok .vUndefined, m)) (fun _ m => (.ok .vUndefined, m))
      [] [] danglingRefCase .vUndefined "w"
      ("Mock db is referenced but not defined") rfl).1

/-! ## Claim C7: dot-path resolution -/

theorem getLastD_mem {α : Type} : ∀ (l : List α) (d : α), l ≠ [] → l.getLastD d ∈ l
  | [], _, h => absurd rfl h
  | [a], d, _ => by simp [List.getLastD]
  | a :: b :: bs, d, _ => by
    have ih := getLastD_mem (b :: bs) a (by simp)
    simpa [List.getLastD] using List.mem_cons_of_mem a ih

/-- C7 counterexample: for the graph `{a: 5}` and path `a.b` the walk
reaches the primitive `5` and the JavaScript `in` operator throws a raw
TypeError — the failure names the searched segment but not the full path,
contradicting the claim that every such failure names the full path. -/
theorem path_resolver_counterexample :
    getNestedProperty (.vObj [("a", .vInt 5)]) "a.b" = .error (.inTypeErr "b") ∧
    PathErr.namedPath (.inTypeErr "b") = none := by
  exact ⟨rfl, rfl⟩

theorem walkProps_error_localized :
    ∀ (parts : List String) (obj : Value) (full : String) (e : PathErr),
      walkProps obj parts full = .error e →
      (e.namedPath = none ∨ e.namedPath = some full) ∧ e.namedSeg ∈ parts := by
  intro parts
  induction parts with
  | nil =>
    intro obj full e h
    cases h
  | cons seg rest ih =>
    intro obj full e h
    rw [walkProps] at h
    by_cases hn : obj.isNullish = true
    · rw [if_pos hn] at h
      cases h
      exact ⟨Or.inr rfl, by simp [PathErr.namedSeg]⟩
    · rw [if_neg hn] at h
      cases hin : jsHasIn obj seg with
      | none =>
        rw [hin] at h
        cases h
        exact ⟨Or.inl rfl, by simp [PathErr.namedSeg]⟩
      | some b =>
        rw [hin] at h
        cases b with
        | false =>
          cases h
          exact ⟨Or.inr rfl, by simp [PathErr.namedSeg]⟩
        | true =>
          obtain ⟨hp, hm⟩ := ih (jsIndex obj seg) full e h
          exact ⟨hp, List.mem_cons_of_mem _ hm⟩

theorem resolveMethodAt_error_cases (parent : Value) (mname path : String) (e : PathErr)
    (h : resolveMethodAt parent mname path = .error e) :
    (e.namedPath = none ∨ e.namedPath = some path) ∧ e.namedSeg = mname := by
  rw [resolveMethodAt] at h
  by_cases hn : parent.isNullish = true
  · rw [if_pos hn] at h
    cases h
    exact ⟨Or.inr rfl, rfl⟩
  · rw [if_neg hn] at h
    cases hin : jsHasIn parent mname with
    | none =>
      rw [hin] at h
      cases h
      exact ⟨Or.inl rfl, rfl⟩
    | some b =>
      rw [hin] at h
      cases b with
      | false =>
        cases h
        exact ⟨Or.inr rfl, rfl⟩
      | true =>
        cases hidx : jsIndex parent mname with
        | vFunc id => rw [hidx] at h; cases h
        | vNull => rw [hidx] at h; cases h; exact ⟨Or.inr rfl, rfl⟩
        | vUndefined => rw [hidx] at h; cases h; exact ⟨Or.inr rfl, rfl⟩
        | vBool b => rw [hidx] at h; cases h; exact ⟨Or.inr rfl, rfl⟩
        | vInt n => rw [hidx] at h; cases h; exact ⟨Or.inr rfl, rfl⟩
        | vStr s => rw [hidx] at h; cases h; exact ⟨Or.inr rfl, rfl⟩
        | vArr xs => rw [hidx] at h; cases h; exact ⟨Or.inr rfl, rfl⟩
        | vObj fs => rw [hidx] at h; cases h; exact ⟨Or.inr rfl, rfl⟩

theorem splitDots_ne_nil (path : String) : splitDots path ≠ [] := by
  unfold splitDots
  intro h
  exact List.splitOnP_ne_nil _ _ (by simpa using h)

/-- C7 (amended): the dot-path resolvers fail the moment a segment cannot
be taken, with errors localized as follows — a nullish intermediate or a
composite lacking the segment yields an error naming that exact segment
and the full original path; an intermediate primitive scalar instead
yields the raw `in`-operator TypeError naming only the segment; for
`callNestedMethod` a present-but-not-invocable terminal yields the
not-callable error naming the method segment and the path, and an
invocable terminal is invoked with the given ordered argument list, its
result (or raised failure) returned. -/
theorem path_resolver_localization :
    (∀ (obj : Value) (path : String) (e : PathErr),
      getNestedProperty obj path = .error e →
      (e.namedPath = none ∨ e.namedPath = some path) ∧ e.namedSeg ∈ splitDots path) ∧
    (∀ (impl : Nat → List Value → Except String Value) (obj : Value) (path : String)
      (args : List Value) (e : PathErr),
      callNestedMethod impl obj path args = .error e →
      (e.namedPath = none ∨ e.namedPath = some path) ∧ e.namedSeg ∈ splitDots path) ∧
    (∀ (current : Value) (seg : String) (rest : List String) (full : String),
      (current.isNullish = true →
        walkProps current (seg :: rest) full = .error (.nullProp seg full)) ∧
      (current.isNullish = false → jsHasIn current seg = none →
        walkProps current (seg :: rest) full = .error (.inTypeErr seg)) ∧
      (current.isNullish = false → jsHasIn current seg = some false →
        walkProps current (seg :: rest) full = .error (.propMissing seg full)) ∧
      (current.isNullish = false → jsHasIn current seg = some true →
        walkProps current (seg :: rest) full = walkProps (jsIndex current seg) rest full)) ∧
    (∀ (impl : Nat → List Value → Except String Value) (obj : Value) (path : String)
      (args : List Value) (parent : Value),
      walkProps obj ((splitDots path).dropLast) path = .ok parent →
      (parent.isNullish = true →
        callNestedMethod impl obj path args =
          .error (.nullMethod ((splitDots path).getLastD "") path)) ∧
      (parent.isNullish = false →
        jsHasIn parent ((splitDots path).getLastD "") = some false →
        callNestedMethod impl obj path args =
          .error (.methodMissing ((splitDots path).getLastD "") path)) ∧
      (∀ id, parent.isNullish = false →
        jsHasIn parent ((splitDots path).getLastD "") = some true →
        jsIndex parent ((splitDots path).getLastD "") = .vFunc id →
        callNestedMethod impl obj path args = .ok (impl id args)) ∧
      (parent.isNullish = false →
        jsHasIn parent ((splitDots path).getLastD "") = some true →
        (∀ id, jsIndex parent ((splitDots path).getLastD "") ≠ .vFunc id) →
        callNestedMethod impl obj path args =
          .error (.notCallable ((splitDots path).getLastD "") path))) := by
  refine ⟨?_, ?_, ?_, ?_⟩
  · intro obj path e h
    exact walkProps_error_localized _ _ _ _ h
  · intro impl obj path args e h
    rw [callNestedMethod] at h
    cases hw : walkProps obj ((splitDots path).dropLast) path with
    | error pe =>
      rw [hw] at h
      cases h
      obtain ⟨hp, hm⟩ := walkProps_error_localized _ _ _ _ hw
      exact ⟨hp, List.mem_of_mem_dropLast hm⟩
    | ok parent =>
      rw [hw] at h
      simp only [] at h
      cases hr : resolveMethodAt parent ((splitDots path).getLastD "") path with
      | error pe =>
        rw [hr] at h
        cases h
        obtain ⟨hp, hseg⟩ := resolveMethodAt_error_cases _ _ _ _ hr
        refine ⟨hp, ?_⟩
        rw [hseg]
        exact getLastD_mem _ _ (splitDots_ne_nil path)
      | ok id =>
        rw [hr] at h
        cases h
  · intro current seg rest full
    refine ⟨?_, ?_, ?_, ?_⟩
    · intro hn
      rw [walkProps, if_pos hn]
    · intro hn hin
      rw [walkProps, if_neg (by simp [hn]), hin]
    · intro hn hin
      rw [walkProps, if_neg (by simp [hn]), hin]
    · intro hn hin
      rw [walkProps, if_neg (by simp [hn]), hin]
  · intro impl obj path args parent hw
    refine ⟨?_, ?_, ?_, ?_⟩
    · intro hn
      rw [callNestedMethod, hw]
      simp only []
      rw [resolveMethodAt, if_pos hn]
    · intro hn hin
      rw [callNestedMethod, hw]
      simp only []
      rw [resolveMethodAt, if_neg (by simp [hn]), hin]
    · intro id hn hin hidx
      rw [callNestedMethod, hw]
      simp only []
      rw [resolveMethodAt, if_neg (by simp [hn]), hin, hidx]
    · intro hn hin hnf
      rw [callNestedMethod, hw]
      simp only []
      rw [resolveMethodAt, if_neg (by simp [hn]), hin]
      cases hidx : jsIndex parent ((splitDots path).getLastD "") with
      | vFunc id => exact absurd hidx (hnf id)
      | vNull => rfl
      | vUndefined => rfl
      | vBool b => rfl
      | vInt n => rfl
      | vStr s => rfl
      | vArr xs => rfl
      | vObj fs => rfl

/-- C7 witness: the localized missing-property error for `{a: {}}` at path
`a.b` names segment `b` and the full path, and an invocable terminal is
invoked with its ordered arguments and its result returned. -/
theorem path_resolver_localization_witness :
    ((PathErr.propMissing "b" "a.b").namedPath = none ∨
      (PathErr.propMissing "b" "a.b").namedPath = some "a.b") ∧
    (PathErr.propMissing "b" "a.b").namedSeg ∈ splitDots "a.b" ∧
    callNestedMethod (fun id args => .ok (.vArr (.vInt (Int.ofNat id) :: args)))
      (.vObj [("m", .vFunc 3)]) "m" [.vInt 1] = .ok (.ok (.vArr [.vInt 3, .vInt 1])) := by
  have h1 := path_resolver_localization.1 (.vObj [("a", .vObj [])]) "a.b"
    (.propMissing "b" "a.b") rfl
  refine ⟨h1.1, h1.2, ?_⟩
  exact path_resolver_localization.2.2.2
    (fun id args => .ok (.vArr (.vInt (Int.ofNat id) :: args)))
    (.vObj [("m", .vFunc 3)]) "m" [.vInt 1] (.vObj [("m", .vFunc 3)]) rfl
    |>.2.2.1 3 rfl rfl rfl

/-! ## Claim C1: finalize and cleanup placement -/

/-- An unconsumed one-call mock for the C1 counterexample. -/
def pendingMock : MockEntry :=
  { mockName := "logger", calls := [witnessCall], funcId := 0, cursor := 0 }

/-- C1 counterexample: a function-mode case whose primary assertion fails
(returns 1, expects 2) with an unconsumed mock — the runner reports only
the primary mismatch, the mock finalize (`validateMockCalls`) never runs
(it sits inside the `try`, after the assertion), even though it would have
failed; only the `finally` cleanup runs. -/
theorem validation_skipped_on_failure :
    (runFunctionCase (some fun _ m => (.ok (.vInt 1), m)) [] (.vInt 2) .vUndefined
      [("logger", pendingMock)] "t").validated = false ∧
    (runFunctionCase (some fun _ m => (.ok (.vInt 1), m)) [] (.vInt 2) .vUndefined
      [("logger", pendingMock)] "t").result =
        .error (.outMismatch (.vInt 1) (.vInt 2)) ∧
    (runFunctionCase (some fun _ m => (.ok (.vInt 1), m)) [] (.vInt 2) .vUndefined
      [("logger", pendingMock)] "t").cleaned = true ∧
    validateMockCalls [("logger", pendingMock)] = .error ("logger", 0, 1) := by
  have hne : toEqual (.vInt 1) (.vInt 2) = false := by
    rw [toEqual, deepEqual] <;> first
      | rfl
      | (intro xs ys h1 h2; cases h1; done)
      | (intro xs ys h1 h2; cases h2)
  have hbody : functionCaseBody (fun _ m => (.ok (.vInt 1), m)) [] (.vInt 2) .vUndefined
      [("logger", pendingMock)] =
      (.error (.outMismatch (.vInt 1) (.vInt 2)), [("logger", pendingMock)]) := by
    rw [functionCaseBody]
    simp [jsTruthy, hne]
  refine ⟨?_, ?_, ?_, rfl⟩ <;> simp [runFunctionCase, hbody]

/-- C1 (amended): in both function mode and class mode, the mock-state
cleanup of the `finally` block runs on every path through the case body
(pass, assertion failure, or throw), but the mock finalize
(`validateMockCalls`) runs only when the case body completed successfully
and the case owns a non-empty mock map — a failed or throwing body skips
mock call-count validation. -/
theorem cleanup_always_validation_on_success :
    (∀ (f : FnImpl) (inArg : List Value) (expectedOut throwsV : Value)
      (mockFns : MockEnv) (nm : String),
      (runFunctionCase (some f) inArg expectedOut throwsV mockFns nm).cleaned = true ∧
      ((runFunctionCase (some f) inArg expectedOut throwsV mockFns nm).validated = true ↔
        ((functionCaseBody f inArg expectedOut throwsV mockFns).1 = .ok () ∧
          mockFns ≠ []))) ∧
    (∀ (inst : Value) (impl : ClassImpl) (exes : List ExecutionSpec)
      (mockFns : MockEnv) (sn : String),
      (runClassCase true inst impl exes mockFns sn).cleaned = true ∧
      ((runClassCase true inst impl exes mockFns sn).validated = true ↔
        ((classCaseBody impl inst exes mockFns).1 = .ok () ∧ mockFns ≠ []))) := by
  constructor
  · intro f inArg expectedOut throwsV mockFns nm
    unfold runFunctionCase
    rcases hbody : functionCaseBody f inArg expectedOut throwsV mockFns with ⟨bodyRes, mocksAfter⟩
    cases bodyRes with
    | error e => simp [hbody]
    | ok u =>
      cases u
      by_cases hm : mockFns.length > 0
      · have hne : mockFns ≠ [] := by
          intro hnil
          rw [hnil] at hm
          simp at hm
        cases hv : validateMockCalls mocksAfter with
        | error e => simp [hbody, hm, hv, hne]
        | ok u2 => cases u2; simp [hbody, hm, hv, hne]
      · have hnil : mockFns = [] := by
          cases mockFns with
          | nil => rfl
          | cons a l => simp at hm
        subst hnil
        simp [hbody, hm]
  · intro inst impl exes mockFns sn
    unfold runClassCase
    rcases hbody : classCaseBody impl inst exes mockFns with ⟨bodyRes, mocksAfter⟩
    cases bodyRes with
    | error e => simp [hbody]
    | ok u =>
      cases u
      by_cases hm : mockFns.length > 0
      · have hne : mockFns ≠ [] := by
          intro hnil
          rw [hnil] at hm
          simp at hm
        cases hv : validateMockCalls mocksAfter with
        | error e => simp [hbody, hm, hv, hne]
        | ok u2 => cases u2; simp [hbody, hm, hv, hne]
      · have hnil : mockFns = [] := by
          cases mockFns with
          | nil => rfl
          | cons a l => simp at hm
        subst hnil
        simp [hbody, hm]

/-! ## Claim C2: circular include chains -/

/-- Nested `Error loading YAML file <p>: ...` wrapping along a chain of
including files. -/
def nestWrap : List String → LoadErr → LoadErr
  | [], e => e
  | p :: rest, e => .wrapped p (nestWrap rest e)

/-- The canonical path named by the innermost circular-dependency error of
a (possibly wrapped) load error, if any. -/
def circularPathOf : LoadErr → Option String
  | .circular p => some p
  | .wrapped _ inner => circularPathOf inner
  | _ => none

theorem circularPathOf_nestWrap (l : List String) (e : LoadErr) :
    circularPathOf (nestWrap l e) = circularPathOf e := by
  induction l with
  | nil => rfl
  | cons p rest ih => simp [nestWrap, circularPathOf, ih]

/-- The head of a suffix chain, or the cycle root once the suffix is
exhausted. -/
def headOr (l : List String) (d : String) : String :=
  l.headD d

/-- The filesystem contains the pure include chain `suffix` closing back to
`root`: each chain file consists of exactly one document holding one
`!include` of the next file (the last pointing at `root`), and `root`
itself exists. -/
def isChainTo (fs : FileSys) : List String → String → Prop
  | [], root => (lookupFile fs root).isSome
  | p :: rest, root =>
    lookupFile fs p = some [Node.include (headOr rest root)] ∧ isChainTo fs rest root

theorem isChainTo_keys (fs : FileSys) :
    ∀ (chain : List String) (root : String), isChainTo fs chain root →
    ∀ q ∈ chain, q ∈ fs.map Prod.fst := by
  intro chain
  induction chain with
  | nil => intro root _ q hq; cases hq
  | cons p rest ih =>
    intro root h q hq
    obtain ⟨hp, hrest⟩ := h
    rcases List.mem_cons.mp hq with hq | hq
    · subst hq
      have : (lookupA fs q).isSome = true := by
        rw [show lookupA fs q = lookupFile fs q from rfl, hp]
        rfl
      rw [lookupA_isSome_iff_keyMem] at this
      exact contains_eq_mem.mp this
    · exact ih root hrest q hq

theorem chain_cycle_err (fs : FileSys) (root : String) :
    ∀ (suffix : List String) (visited : List String) (fuel : Nat),
      suffix.length + 1 ≤ fuel →
      isChainTo fs suffix root →
      root ∈ visited →
      (∀ p ∈ suffix, p ∉ visited) →
      suffix.Nodup →
      loadYamlF fs fuel (headOr suffix root) visited =
        .error (nestWrap suffix (.circular root)) := by
  intro suffix
  induction suffix with
  | nil =>
    intro visited fuel hfuel _ hroot _ _
    cases fuel with
    | zero => omega
    | succ f =>
      show loadYamlF fs (f + 1) root visited = .error (.circular root)
      rw [loadYamlF, if_pos hroot]
  | cons p rest ih =>
    intro visited fuel hfuel hchain hroot hnotin hnd
    obtain ⟨hlookup, hchainrest⟩ := hchain
    cases fuel with
    | zero => simp at hfuel
    | succ f =>
      have hnext : (lookupFile fs (headOr rest root)).isSome = true := by
        cases rest with
        | nil => exact hchainrest
        | cons q qs =>
          obtain ⟨hq, _⟩ := hchainrest
          rw [show headOr (q :: qs) root = q from rfl, hq]
          rfl
      have hrec : loadYamlF fs f (headOr rest root) (p :: visited) =
          .error (nestWrap rest (.circular root)) := by
        apply ih (p :: visited) f (by simpa using Nat.lt_of_succ_le hfuel) hchainrest
          (List.mem_cons_of_mem _ hroot) ?_ hnd.of_cons
        intro q hq hq'
        rcases List.mem_cons.mp hq' with hq' | hq'
        · subst hq'
          exact (List.nodup_cons.mp hnd).1 hq
        · exact hnotin q (List.mem_cons_of_mem _ hq) hq'
      show loadYamlF fs (f + 1) p visited = _
      rw [loadYamlF, if_neg (hnotin p (List.mem_cons_self _ _))]
      rw [show lookupFile fs p = some [Node.include (headOr rest root)] from hlookup]
      simp only []
      rw [resolveNodesF, resolveNodeF, if_neg ?_, hrec]
      · rfl
      · cases hl : lookupFile fs (headOr rest root) with
        | none => rw [hl] at hnext; cases hnext
        | some d => simp [hl]

theorem nodup_subset_length {l l' : List String} (hnd : l.Nodup) (hsub : ∀ x ∈ l, x ∈ l') :
    l.length ≤ l'.length := by
  have h1 : l.toFinset.card = l.length := List.toFinset_card_of_nodup hnd
  have h2 : l.toFinset ⊆ l'.toFinset := by
    intro x hx
    exact List.mem_toFinset.mpr (hsub x (List.mem_toFinset.mp hx))
  have h3 : l'.toFinset.card ≤ l'.length := l'.toFinset_card_le
  have h4 := Finset.card_le_card h2
  omega

/-- C2: for every include chain `first :: rest` of distinct canonical paths
forming a cycle back to `first` (length 1 covers self-inclusion), loading
`first` fails with the wrapped circular-dependency error whose innermost
error names the offending canonical path `first`, and the load terminates:
every sufficiently large fuel computes this same fixed error, and the
default fuel of `loadYamlWithPath` is sufficient. -/
theorem circular_include_chain (first : String) (rest : List String) (fs : FileSys)
    (hchain : isChainTo fs (first :: rest) first)
    (hnd : (first :: rest).Nodup) :
    loadYamlWithPath fs first = .error (nestWrap (first :: rest) (.circular first)) ∧
    circularPathOf (nestWrap (first :: rest) (.circular first)) = some first ∧
    (∀ fuel, rest.length + 2 ≤ fuel →
      loadYamlF fs fuel first [] = .error (nestWrap (first :: rest) (.circular first))) := by
  have hmain : ∀ fuel, rest.length + 2 ≤ fuel →
      loadYamlF fs fuel first [] = .error (nestWrap (first :: rest) (.circular first)) := by
    intro fuel hfuel
    obtain ⟨hlookup, hchainrest⟩ := hchain
    cases fuel with
    | zero => simp at hfuel
    | succ f =>
      have hnext : (lookupFile fs (headOr rest first)).isSome = true := by
        cases rest with
        | nil => exact hchainrest
        | cons q qs =>
          obtain ⟨hq, _⟩ := hchainrest
          rw [show headOr (q :: qs) first = q from rfl, hq]
          rfl
      have hrec : loadYamlF fs f (headOr rest first) [first] =
          .error (nestWrap rest (.circular first)) := by
        apply chain_cycle_err fs first rest [first] f
          (by simpa using Nat.lt_of_succ_le hfuel) hchainrest
          (List.mem_cons_self _ _) ?_ hnd.of_cons
        intro q hq hq'
        rcases List.mem_cons.mp hq' with hq' | hq'
        · subst hq'
          exact (List.nodup_cons.mp hnd).1 hq
        · cases hq'
      rw [loadYamlF, if_neg (by simp)]
      rw [show lookupFile fs first = some [Node.include (headOr rest first)] from hlookup]
      simp only []
      rw [resolveNodesF, resolveNodeF, if_neg ?_, hrec]
      · rfl
      · cases hl : lookupFile fs (headOr rest first) with
        | none => rw [hl] at hnext; cases hnext
        | some d => simp [hl]
  refine ⟨?_, ?_, hmain⟩
  · have hkeys := isChainTo_keys fs (first :: rest) first hchain
    have hlen : (first :: rest).length ≤ (fs.map Prod.fst).length :=
      nodup_subset_length hnd hkeys
    have : rest.length + 2 ≤ boundFuel fs := by
      simp only [boundFuel]
      simp only [List.length_cons, List.length_map] at hlen ⊢
      omega
    exact hmain (boundFuel fs) this
  · rw [circularPathOf_nestWrap]
    rfl

/-- C2 witness: the one-file self-include cycle — `a.yaml` whose only
document is `!include a.yaml` — fails with the wrapped circular error
naming `a.yaml`. -/
theorem circular_include_chain_witness :
    loadYamlWithPath [("a.yaml", [Node.include "a.yaml"])] "a.yaml" =
      .error (.wrapped "a.yaml" (.circular "a.yaml")) ∧
    circularPathOf (.wrapped "a.yaml" (.circular "a.yaml")) = some "a.yaml" := by
  have h := circular_include_chain "a.yaml" [] [("a.yaml", [Node.include "a.yaml"])]
    ⟨rfl, rfl⟩ (by simp)
  exact ⟨h.1, h.2.1⟩

/-! ## Claim C3: sibling re-inclusion of a shared target -/

/-- The diamond include tree: the root file includes `a` and `b` on two
independent branches, both of which include the shared leaf `t`, whose
single document is the arbitrary content `v`. -/
def diamondFS (r a b t : String) (v : Value) : FileSys :=
  [(r, [Node.obj [("left", .include a), ("right", .include b)]]),
   (a, [Node.include t]),
   (b, [Node.include t]),
   (t, [Node.leaf v])]

/-- C3: with all four canonical paths distinct, loading the diamond root
succeeds — both independent branches resolve the shared target — and both
occurrences carry the identical content `v`; the copied (not shared)
visited set is what the functional extension of the visited list models,
so the second branch is not poisoned by the first.  The result is stable
for every sufficient fuel, and `loadYamlWithPath` computes it. -/
theorem sibling_reinclusion (r a b t : String) (v : Value)
    (hra : a ≠ r) (hrb : b ≠ r) (hrt : t ≠ r)
    (hab : b ≠ a) (hat : t ≠ a) (hbt : t ≠ b) :
    loadYamlWithPath (diamondFS r a b t v) r = .ok (.vObj [("left", v), ("right", v)]) ∧
    (∀ f, loadYamlF (diamondFS r a b t v) (f + 3) r [] =
      .ok (.vObj [("left", v), ("right", v)])) := by
  have e1 : (r == a) = false := by simpa using Ne.symm hra
  have e2 : (r == b) = false := by simpa using Ne.symm hrb
  have e3 : (r == t) = false := by simpa using Ne.symm hrt
  have e4 : (a == b) = false := by simpa using Ne.symm hab
  have e5 : (a == t) = false := by simpa using Ne.symm hat
  have e6 : (b == t) = false := by simpa using Ne.symm hbt
  have hlr : lookupFile (diamondFS r a b t v) r =
      some [Node.obj [("left", .include a), ("right", .include b)]] := by
    simp [diamondFS, lookupFile, lookupA]
  have hla : lookupFile (diamondFS r a b t v) a = some [Node.include t] := by
    simp [diamondFS, lookupFile, lookupA, e1]
  have hlb : lookupFile (diamondFS r a b t v) b = some [Node.include t] := by
    simp [diamondFS, lookupFile, lookupA, e2, e4]
  have hlt : lookupFile (diamondFS r a b t v) t = some [Node.leaf v] := by
    simp [diamondFS, lookupFile, lookupA, e3, e5, e6]
  have hload_t : ∀ (f : Nat) (vis : List String), t ∉ vis →
      loadYamlF (diamondFS r a b t v) (f + 1) t vis = .ok v := by
    intro f vis hvis
    rw [loadYamlF, if_neg hvis, hlt]
    simp only []
    rw [resolveNodesF, resolveNodeF, resolveNodesF]
  have hload_a : ∀ (f : Nat) (vis : List String), a ∉ vis → t ∉ a :: vis →
      loadYamlF (diamondFS r a b t v) (f + 2) a vis = .ok v := by
    intro f vis ha ht
    rw [loadYamlF, if_neg ha, hla]
    simp only []
    rw [resolveNodesF, resolveNodeF, if_neg (by simp [hlt]), hload_t f (a :: vis) ht,
      resolveNodesF]
  have hload_b : ∀ (f : Nat) (vis : List String), b ∉ vis → t ∉ b :: vis →
      loadYamlF (diamondFS r a b t v) (f + 2) b vis = .ok v := by
    intro f vis hb ht
    rw [loadYamlF, if_neg hb, hlb]
    simp only []
    rw [resolveNodesF, resolveNodeF, if_neg (by simp [hlt]), hload_t f (b :: vis) ht,
      resolveNodesF]
  have hmain : ∀ f, loadYamlF (diamondFS r a b t v) (f + 3) r [] =
      .ok (.vObj [("left", v), ("right", v)]) := by
    intro f
    rw [loadYamlF, if_neg (by simp), hlr]
    simp only []
    rw [resolveNodesF, resolveNodeF, resolveFieldsF, resolveNodeF,
      if_neg (by simp [hla]),
      hload_a f [r] (by simp [hra]) (by simp [hat, hrt]),
      resolveFieldsF, resolveNodeF,
      if_neg (by simp [hlb]),
      hload_b f [r] (by simp [hrb]) (by simp [hbt, hrt]),
      resolveFieldsF, resolveNodesF]
    rfl
  refine ⟨?_, hmain⟩
  show loadYamlF (diamondFS r a b t v) (boundFuel (diamondFS r a b t v)) r [] = _
  have hbf : boundFuel (diamondFS r a b t v) = 2 + 3 := rfl
  rw [hbf]
  exact hmain 2

/-- C3 witness: the concrete diamond with distinct path names and content
`42` loads successfully with the shared content in both branches. -/
theorem sibling_reinclusion_witness :
    loadYamlWithPath (diamondFS "r" "a" "b" "t" (.vInt 42)) "r" =
      .ok (.vObj [("left", .vInt 42), ("right", .vInt 42)]) := by
  exact (sibling_reinclusion "r" "a" "b" "t" (.vInt 42) (by decide) (by decide)
    (by decide) (by decide) (by decide) (by decide)).1

/-! ## Claim C10: the two normalizers -/

/-- Applies `f` to every element of an array value. -/
def mapArr (f : Value → Value) : Value → Value
  | .vArr xs => .vArr (xs.map f)
  | v => v

/-- Erases the mock bookkeeping of a case object produced by
`parseYamlDocuments`: drops the `mocks` and `resolvedMocks` keys. -/
def eraseCaseMockFields : Value → Value
  | .vObj fields => .vObj (fields.filter fun kv =>
      kv.1 != "mocks" && kv.1 != "resolvedMocks")
  | v => v

/-- Erases the mock bookkeeping of a suite object: drops its `mocks` key
and erases each of its cases. -/
def eraseSuiteMockFields : Value → Value
  | .vObj fields => .vObj ((fields.filter fun kv => kv.1 != "mocks").map fun kv =>
      if kv.1 == "cases" then (kv.1, mapArr eraseCaseMockFields kv.2) else kv)
  | v => v

/-- Erases the mock bookkeeping of a whole config object: drops its
`mocks` key and erases each suite. -/
def eraseConfigMockFields : Value → Value
  | .vObj fields => .vObj ((fields.filter fun kv => kv.1 != "mocks").map fun kv =>
      if kv.1 == "suites" then (kv.1, mapArr eraseSuiteMockFields kv.2) else kv)
  | v => v

/-- The suite accumulator of `processDocuments` corresponding to a
`parseYamlDocuments` accumulator with its mock fields erased. -/
def eraseSuiteAcc (sy : SuiteAccY) : SuiteAccP :=
  { name := sy.name, exportName := sy.exportName, isClass := sy.isClass,
    ctorArgs := sy.ctorArgs, cases := sy.cases.map eraseCaseMockFields }

/-- The `processDocuments` state corresponding to a `parseYamlDocuments`
state with its mock fields erased. -/
def eraseStateY (sy : NormStateY) : NormStateP :=
  { file := sy.file, group := sy.group, suiteNames := sy.suiteNames,
    suites := sy.suites.map eraseSuiteMockFields,
    currentSuite := sy.currentSuite.map eraseSuiteAcc }

theorem renderSuite_erase (sy : SuiteAccY) :
    renderSuiteP (eraseSuiteAcc sy) = eraseSuiteMockFields (renderSuiteY sy) := by
  unfold renderSuiteP renderSuiteY eraseSuiteMockFields eraseSuiteAcc mapArr
  by_cases hc : sy.isClass <;> simp [hc, List.filter_append, List.map_append]

theorem renderSuite_erase_lit (sy : SuiteAccY) :
    renderSuiteP (SuiteAccP.mk sy.name sy.exportName sy.isClass sy.ctorArgs
      (sy.cases.map eraseCaseMockFields)) =
    eraseSuiteMockFields (renderSuiteY sy) :=
  renderSuite_erase sy

theorem renderConfig_erase (sy : NormStateY) :
    renderConfigP (eraseStateY sy) = eraseConfigMockFields (renderConfigY sy) := by
  unfold renderConfigP renderConfigY eraseConfigMockFields eraseStateY mapArr
  cases hs : sy.suiteNames <;> cases hc : sy.currentSuite <;>
    simp [renderSuite_erase, List.filter_append, List.map_append]

theorem stepTotal_erase (sy : NormStateY) (d : Value) :
    stepDocPTotal (eraseStateY sy) d = eraseStateY (stepDocYTotal sy d) := by
  unfold stepDocPTotal stepDocYTotal
  by_cases h1 : (docField d "file").jsTruthy
  · simp [h1, eraseStateY]
  · by_cases h2 : (docField d "suite").jsTruthy
    · cases hcur : sy.currentSuite <;>
        simp [h1, h2, eraseStateY, eraseSuiteAcc, renderSuite_erase_lit, hcur]
    · simp only [h1, h2, Bool.false_eq_true, if_false]
      cases hcur : sy.currentSuite with
      | none => simp [eraseStateY, hcur]
      | some cur =>
        by_cases h3 : (docField d "case").jsTruthy
        · by_cases hc : cur.isClass
          · simp [eraseStateY, hcur, h3, hc, eraseSuiteAcc, eraseCaseMockFields]
          · by_cases ht : (docField d "throws").jsTruthy <;>
              simp [eraseStateY, hcur, h3, hc, eraseSuiteAcc, eraseCaseMockFields, ht]
        · simp [eraseStateY, hcur, h3]

theorem parseDocsFold_cons (st : NormStateY) (d : Value) (rest : List Value) :
    parseDocsFold st (d :: rest) =
      match stepDocY st d with
      | .error m => .error m
      | .ok st2 => parseDocsFold st2 rest := rfl

theorem processDocsFold_erase (docs : List Value) :
    ∀ sy : NormStateY,
      processDocsFold (eraseStateY sy) docs =
        match parseDocsFold sy docs with
        | .error m => .error m
        | .ok sy2 => .ok (eraseStateY sy2) := by
  induction docs with
  | nil => intro sy; rfl
  | cons d rest ih =>
    intro sy
    rw [processDocsFold_cons, parseDocsFold_cons]
    by_cases hd : d.isNullish = true
    · obtain ⟨m, hp, hy⟩ := stepDocP_nullish (eraseStateY sy) sy d hd
      rw [hp, hy]
    · have hd' : d.isNullish = false := by simpa using hd
      rw [stepDocP_eq_total _ _ hd', stepDocY_eq_total _ _ hd']
      rw [stepTotal_erase]
      exact ih (stepDocYTotal sy d)

/-- C10 counterexample: on the one-document stream `[{file: "./m.js"}]`
the pipeline normalizer produces a config without any mock fields while
`parseYamlDocuments` adds `mocks: {}`; the two configs are not even
deep-equal, so the normalizers do not produce the same TestConfig (and the
pipeline normalizer carries no mock definitions at all). -/
theorem normalizers_differ_counterexample :
    processDocumentsV [.vObj [("file", .vStr "./m.js")]] =
      .ok (.vObj [("file", .vStr "./m.js"), ("group", .vUndefined), ("suites", .vArr [])]) ∧
    parseYamlDocumentsV [.vObj [("file", .vStr "./m.js")]] =
      .ok (.vObj [("file", .vStr "./m.js"), ("group", .vUndefined), ("mocks", .vObj []),
        ("suites", .vArr [])]) ∧
    deepEqual
      (.vObj [("file", .vStr "./m.js"), ("group", .vUndefined), ("suites", .vArr [])])
      (.vObj [("file", .vStr "./m.js"), ("group", .vUndefined), ("mocks", .vObj []),
        ("suites", .vArr [])]) = false := by
  refine ⟨rfl, rfl, ?_⟩
  rw [deepEqual_obj]
  simp

/-- C10 (amended): the include-pipeline normalizer `processDocuments` and
the exported `parseYamlDocuments` agree on every document stream only
modulo mock bookkeeping: erasing the `mocks` keys (config, suite and case
level) and the cases' `resolvedMocks` key from the `parseYamlDocuments`
output yields exactly the `processDocuments` output (including identical
TypeError failures on nullish documents); the mock definitions themselves
are carried only by `parseYamlDocuments`, not by the pipeline normalizer. -/
theorem normalizers_agree_modulo_mocks :
    ∀ docs : List Value,
      processDocumentsV docs = (parseYamlDocumentsV docs).map eraseConfigMockFields := by
  intro docs
  unfold processDocumentsV parseYamlDocumentsV
  have hinit : initStateP = eraseStateY initStateY := rfl
  rw [hinit, processDocsFold_erase docs initStateY]
  cases h : parseDocsFold initStateY docs with
  | error m => rfl
  | ok sy =>
    show Except.ok (renderConfigP (eraseStateY sy)) = _
    rw [renderConfig_erase]
    rfl
